import Mathlib

/-!
Verification of the bidirectional LaTeX <-> HTML converter
(`escapeLatex`, `unescapeLatex`, `latexToHtml`, `htmlToLatex` from the
repository's `src/lib/latex.js`).

Strings are modelled as `List Char`.  Each JavaScript
`String.prototype.replace(regex, ...)` chain is embedded as a
left-to-right, non-rescanning scanner with the exact match semantics of
the concrete regular expression it models (all the patterns involved are
deterministic: literal strings, lazy captures up to the first occurrence
of a closing literal, fixed character classes).  All definitions are
structurally recursive so that they evaluate inside `decide`.
-/

/-! ## Generic list/string helpers -/

/-- If `pat` is a prefix of `s`, return the remainder of `s`; else `none`. -/
def stripPre : List Char → List Char → Option (List Char)
  | [], s => some s
  | _ :: _, [] => none
  | p :: ps, c :: rest => if p = c then stripPre ps rest else none

/-- Boolean prefix test. -/
def startsW (pat s : List Char) : Bool :=
  (stripPre pat s).isSome

/-- Split `s` around the first occurrence of `pat`:
`splitFirst pat s = some (a, b)` with `s = a ++ pat ++ b` and `pat` not
occurring in `a` (ending before the found occurrence). -/
def splitFirst (pat : List Char) : List Char → Option (List Char × List Char)
  | [] => none
  | c :: rest =>
    match stripPre pat (c :: rest) with
    | some rem => some ([], rem)
    | none =>
      match splitFirst pat rest with
      | some (a, b) => some (c :: a, b)
      | none => none

/-- Boolean substring test: does `pat` occur (contiguously) in `s`? -/
def containsB (pat : List Char) : List Char → Bool
  | [] => startsW pat []
  | c :: rest => startsW pat (c :: rest) || containsB pat rest

/-- One global literal find/replace pass, left to right, the replacement
never rescanned: the semantics of JavaScript `s.replace(/lit/g, rep)`
for a literal pattern.  `skip` counts pattern characters still to drop
after a match. -/
def replAllGo (pat rep : List Char) : Nat → List Char → List Char
  | _ + 1, [] => []
  | n + 1, _ :: rest => replAllGo pat rep n rest
  | 0, [] => []
  | 0, c :: rest =>
    match stripPre pat (c :: rest) with
    | some _ => rep ++ replAllGo pat rep (pat.length - 1) rest
    | none => c :: replAllGo pat rep 0 rest

def replAll (pat rep s : List Char) : List Char :=
  if pat = [] then s else replAllGo pat rep 0 s

/-- Convenience wrapper: `rA s "pat" "rep"` is `s.replace(/pat/g, "rep")`
for a literal pattern, with the pattern and replacement given as string
literals. -/
def rA (s : List Char) (pat rep : String) : List Char :=
  replAll pat.toList rep.toList s

/-! ## The escaper (`escapeLatex` / `unescapeLatex`) -/

/-- `escapeLatex` from the source: ten chained global replaces, in this
exact order (backslash first). -/
def escapeLatex (text : List Char) : List Char :=
  rA (rA (rA (rA (rA (rA (rA (rA (rA (rA text
    "\\" "\\textbackslash\x7b\x7d")
    "\x7b" "\\\x7b")
    "\x7d" "\\\x7d")
    "$" "\\$")
    "&" "\\&")
    "#" "\\#")
    "%" "\\%")
    "_" "\\_")
    "^" "\\textasciicircum\x7b\x7d")
    "~" "\\textasciitilde\x7b\x7d"

/-- `unescapeLatex` from the source: the ten inverse replaces, escaped
backslash resolved first. -/
def unescapeLatex (text : List Char) : List Char :=
  rA (rA (rA (rA (rA (rA (rA (rA (rA (rA text
    "\\textbackslash\x7b\x7d" "\\")
    "\\\x7b" "\x7b")
    "\\\x7d" "\x7d")
    "\\$" "$")
    "\\&" "&")
    "\\#" "#")
    "\\%" "%")
    "\\_" "_")
    "\\textasciicircum\x7b\x7d" "^")
    "\\textasciitilde\x7b\x7d" "~"

/-- C1 probe: the escape of a lone backslash, per the source order of
substitutions. -/
theorem escapeLatex_backslash :
    escapeLatex ['\\'] = "\\textbackslash\\\x7b\\\x7d".toList := by decide

/-- C1: round-tripping a lone backslash does not give the backslash
back: the brace substitutions of `escapeLatex` re-escape the braces of
the inserted `\textbackslash{}`, which `unescapeLatex`'s first rule
then no longer recognizes. -/
theorem claim1_backslash_roundtrip_fails :
    unescapeLatex (escapeLatex ['\\']) = "\\textbackslash\x7b\x7d".toList ∧
    unescapeLatex (escapeLatex ['\\']) ≠ ['\\'] := by decide

/-! ## Percent-coding (`encodeURIComponent` / `decodeURIComponent`)

The forward compiler stores each math node's canonical source as
`encodeURIComponent(m)` in its `data-latex` attribute; the backward
compiler reads it back with `decodeURIComponent`.  Both built-ins are
modelled at the character level, with UTF-8 byte sequences for
characters outside `encodeURIComponent`'s unreserved set. -/

/-- The characters `encodeURIComponent` leaves unencoded:
`A-Z a-z 0-9 - _ . ! ~ * ' ( )`. -/
def uriUnreserved (c : Char) : Bool :=
  decide ((65 ≤ c.toNat ∧ c.toNat ≤ 90) ∨ (97 ≤ c.toNat ∧ c.toNat ≤ 122) ∨
    (48 ≤ c.toNat ∧ c.toNat ≤ 57) ∨
    c.toNat ∈ ([45, 95, 46, 33, 126, 42, 39, 40, 41] : List Nat))

/-- Uppercase hexadecimal digit for `n < 16`. -/
def hexDigU (n : Nat) : Char :=
  if n < 10 then Char.ofNat (48 + n) else Char.ofNat (55 + n)

/-- UTF-8 bytes of a code point. -/
def utf8Bytes (v : Nat) : List Nat :=
  if v < 0x80 then [v]
  else if v < 0x800 then [0xC0 + v / 64, 0x80 + v % 64]
  else if v < 0x10000 then
    [0xE0 + v / 4096, 0x80 + v / 64 % 64, 0x80 + v % 64]
  else
    [0xF0 + v / 262144, 0x80 + v / 4096 % 64, 0x80 + v / 64 % 64,
      0x80 + v % 64]

/-- `%XX` escape of one byte. -/
def pctByte (b : Nat) : List Char :=
  ['%', hexDigU (b / 16), hexDigU (b % 16)]

/-- The encoding of a single character. -/
def encChar (c : Char) : List Char :=
  if uriUnreserved c then [c] else (utf8Bytes c.toNat).flatMap pctByte

/-- `encodeURIComponent` on a whole string. -/
def encodeURIComponent (s : List Char) : List Char :=
  s.flatMap encChar

/-- Value of one hexadecimal digit character (either case), as
`decodeURIComponent` accepts it. -/
def hexVal (c : Char) : Option Nat :=
  if 48 ≤ c.toNat ∧ c.toNat ≤ 57 then some (c.toNat - 48)
  else if 65 ≤ c.toNat ∧ c.toNat ≤ 70 then some (c.toNat - 55)
  else if 97 ≤ c.toNat ∧ c.toNat ≤ 102 then some (c.toNat - 87)
  else none


/-- Read one `%XX` byte at the head of the list. -/
def readByte : List Char → Option Nat
  | p :: h1 :: h2 :: _ =>
    if p = '%' then
      match hexVal h1, hexVal h2 with
      | some x, some y => some (16 * x + y)
      | _, _ => none
    else none
  | _ => none

/-- A UTF-8 continuation byte's payload. -/
def contVal (b : Nat) : Option Nat :=
  if 0x80 ≤ b ∧ b < 0xC0 then some (b - 0x80) else none

/-- Continuation byte `%XX` at offset `k`. -/
def contAt (k : Nat) (s : List Char) : Option Nat :=
  (readByte (s.drop k)).bind contVal

/-- Decode one percent-escaped UTF-8 character at the head of `s`
(which starts with `%`), returning the character and the number of
input characters consumed.  Overlong encodings, invalid continuation
bytes, surrogate code points and out-of-range code points are rejected,
as `decodeURIComponent` rejects them with `URIError`. -/
def readEsc (s : List Char) : Option (Char × Nat) :=
  match readByte s with
  | none => none
  | some b1 =>
    if b1 < 0x80 then some (Char.ofNat b1, 3)
    else if b1 < 0xC0 then none
    else if b1 < 0xE0 then
      match contAt 3 s with
      | none => none
      | some c2 =>
        let v := (b1 - 0xC0) * 64 + c2
        if 0x80 ≤ v then some (Char.ofNat v, 6) else none
    else if b1 < 0xF0 then
      match contAt 3 s, contAt 6 s with
      | some c2, some c3 =>
        let v := (b1 - 0xE0) * 4096 + c2 * 64 + c3
        if 0x800 ≤ v ∧ ¬(0xD800 ≤ v ∧ v < 0xE000) then
          some (Char.ofNat v, 9)
        else none
      | _, _ => none
    else if b1 < 0xF8 then
      match contAt 3 s, contAt 6 s, contAt 9 s with
      | some c2, some c3, some c4 =>
        let v := (b1 - 0xF0) * 262144 + c2 * 4096 + c3 * 64 + c4
        if 0x10000 ≤ v ∧ v < 0x110000 then some (Char.ofNat v, 12)
        else none
      | _, _, _ => none
    else none

/-- Character-by-character decoding loop; the first argument counts
characters of an already-decoded escape still to skip. -/
def pdGo : Nat → List Char → Option (List Char)
  | n + 1, _ :: rest => pdGo n rest
  | _ + 1, [] => none
  | 0, [] => some []
  | 0, c :: rest =>
    if c = '%' then
      match readEsc (c :: rest) with
      | some (ch, k) => (pdGo (k - 1) rest).map (ch :: ·)
      | none => none
    else (pdGo 0 rest).map (c :: ·)

/-- `decodeURIComponent`: percent-escaped UTF-8 byte sequences become
characters, everything else passes through; malformed sequences raise
`URIError` in JavaScript, modelled as `none`. -/
def percentDecode (s : List Char) : Option (List Char) :=
  pdGo 0 s

set_option maxRecDepth 8000 in
theorem hexVal_hexDigU {n : Nat} (h : n < 16) : hexVal (hexDigU n) = some n := by
  interval_cases n <;> decide

theorem char_scalar (c : Char) :
    c.toNat < 0xD800 ∨ (0xDFFF < c.toNat ∧ c.toNat < 0x110000) :=
  c.valid

theorem readByte_pct {b : Nat} (hb : b < 256) (r : List Char) :
    readByte ('%' :: hexDigU (b / 16) :: hexDigU (b % 16) :: r) = some b := by
  rw [readByte, if_pos rfl, hexVal_hexDigU (by omega : b / 16 < 16),
    hexVal_hexDigU (by omega : b % 16 < 16)]
  simp only []
  rw [Nat.div_add_mod]

theorem contVal_pct {x : Nat} (hx : x < 64) : contVal (0x80 + x) = some x := by
  rw [contVal, if_pos (by omega), Nat.add_sub_cancel_left]

theorem readEsc_one {v : Nat} (h : v < 0x80) (t : List Char) :
    readEsc ('%' :: hexDigU (v / 16) :: hexDigU (v % 16) :: t) =
      some (Char.ofNat v, 3) := by
  rw [readEsc, readByte_pct (by omega) t]
  simp only [if_pos h]

theorem readEsc_two {v : Nat} (h1 : 0x80 ≤ v) (h2 : v < 0x800) (t : List Char) :
    readEsc ('%' :: hexDigU ((0xC0 + v / 64) / 16) :: hexDigU ((0xC0 + v / 64) % 16) ::
      '%' :: hexDigU ((0x80 + v % 64) / 16) :: hexDigU ((0x80 + v % 64) % 16) :: t) =
      some (Char.ofNat v, 6) := by
  rw [readEsc, readByte_pct (by omega) _]
  simp only []
  rw [if_neg (by omega), if_neg (by omega), if_pos (by omega : 0xC0 + v / 64 < 0xE0)]
  have hdrop : contAt 3 ('%' :: hexDigU ((0xC0 + v / 64) / 16) :: hexDigU ((0xC0 + v / 64) % 16) ::
      '%' :: hexDigU ((0x80 + v % 64) / 16) :: hexDigU ((0x80 + v % 64) % 16) :: t) =
      some (v % 64) := by
    show (readByte ('%' :: hexDigU ((0x80 + v % 64) / 16) ::
      hexDigU ((0x80 + v % 64) % 16) :: t)).bind contVal = some (v % 64)
    rw [readByte_pct (by omega) _]
    simpa using contVal_pct (by omega : v % 64 < 64)
  rw [hdrop]
  simp only []
  rw [if_pos (by omega : 0x80 ≤ (0xC0 + v / 64 - 0xC0) * 64 + v % 64)]
  have : (0xC0 + v / 64 - 0xC0) * 64 + v % 64 = v := by omega
  rw [this]

theorem readEsc_three {v : Nat} (h1 : 0x800 ≤ v) (h2 : v < 0x10000)
    (hs : ¬(0xD800 ≤ v ∧ v < 0xE000)) (t : List Char) :
    readEsc ('%' :: hexDigU ((0xE0 + v / 4096) / 16) :: hexDigU ((0xE0 + v / 4096) % 16) ::
      '%' :: hexDigU ((0x80 + v / 64 % 64) / 16) :: hexDigU ((0x80 + v / 64 % 64) % 16) ::
      '%' :: hexDigU ((0x80 + v % 64) / 16) :: hexDigU ((0x80 + v % 64) % 16) :: t) =
      some (Char.ofNat v, 9) := by
  rw [readEsc, readByte_pct (by omega) _]
  simp only []
  rw [if_neg (by omega), if_neg (by omega), if_neg (by omega),
    if_pos (by omega : 0xE0 + v / 4096 < 0xF0)]
  have hd1 : contAt 3 ('%' :: hexDigU ((0xE0 + v / 4096) / 16) :: hexDigU ((0xE0 + v / 4096) % 16) ::
      '%' :: hexDigU ((0x80 + v / 64 % 64) / 16) :: hexDigU ((0x80 + v / 64 % 64) % 16) ::
      '%' :: hexDigU ((0x80 + v % 64) / 16) :: hexDigU ((0x80 + v % 64) % 16) :: t) =
      some (v / 64 % 64) := by
    show (readByte ('%' :: hexDigU ((0x80 + v / 64 % 64) / 16) ::
      hexDigU ((0x80 + v / 64 % 64) % 16) ::
      '%' :: hexDigU ((0x80 + v % 64) / 16) :: hexDigU ((0x80 + v % 64) % 16) :: t)).bind
        contVal = some (v / 64 % 64)
    rw [readByte_pct (by omega) _]
    simpa using contVal_pct (by omega : v / 64 % 64 < 64)
  have hd2 : contAt 6 ('%' :: hexDigU ((0xE0 + v / 4096) / 16) :: hexDigU ((0xE0 + v / 4096) % 16) ::
      '%' :: hexDigU ((0x80 + v / 64 % 64) / 16) :: hexDigU ((0x80 + v / 64 % 64) % 16) ::
      '%' :: hexDigU ((0x80 + v % 64) / 16) :: hexDigU ((0x80 + v % 64) % 16) :: t) =
      some (v % 64) := by
    show (readByte ('%' :: hexDigU ((0x80 + v % 64) / 16) ::
      hexDigU ((0x80 + v % 64) % 16) :: t)).bind contVal = some (v % 64)
    rw [readByte_pct (by omega) _]
    simpa using contVal_pct (by omega : v % 64 < 64)
  rw [hd1, hd2]
  simp only []
  rw [if_pos (by constructor <;> omega)]
  have : (0xE0 + v / 4096 - 0xE0) * 4096 + v / 64 % 64 * 64 + v % 64 = v := by omega
  rw [this]

theorem readEsc_four {v : Nat} (h1 : 0x10000 ≤ v) (h2 : v < 0x110000) (t : List Char) :
    readEsc ('%' :: hexDigU ((0xF0 + v / 262144) / 16) :: hexDigU ((0xF0 + v / 262144) % 16) ::
      '%' :: hexDigU ((0x80 + v / 4096 % 64) / 16) :: hexDigU ((0x80 + v / 4096 % 64) % 16) ::
      '%' :: hexDigU ((0x80 + v / 64 % 64) / 16) :: hexDigU ((0x80 + v / 64 % 64) % 16) ::
      '%' :: hexDigU ((0x80 + v % 64) / 16) :: hexDigU ((0x80 + v % 64) % 16) :: t) =
      some (Char.ofNat v, 12) := by
  rw [readEsc, readByte_pct (by omega) _]
  simp only []
  rw [if_neg (by omega), if_neg (by omega), if_neg (by omega), if_neg (by omega),
    if_pos (by omega : 0xF0 + v / 262144 < 0xF8)]
  have hd1 : contAt 3 ('%' :: hexDigU ((0xF0 + v / 262144) / 16) :: hexDigU ((0xF0 + v / 262144) % 16) ::
      '%' :: hexDigU ((0x80 + v / 4096 % 64) / 16) :: hexDigU ((0x80 + v / 4096 % 64) % 16) ::
      '%' :: hexDigU ((0x80 + v / 64 % 64) / 16) :: hexDigU ((0x80 + v / 64 % 64) % 16) ::
      '%' :: hexDigU ((0x80 + v % 64) / 16) :: hexDigU ((0x80 + v % 64) % 16) :: t) =
      some (v / 4096 % 64) := by
    show (readByte ('%' :: hexDigU ((0x80 + v / 4096 % 64) / 16) ::
      hexDigU ((0x80 + v / 4096 % 64) % 16) ::
      '%' :: hexDigU ((0x80 + v / 64 % 64) / 16) :: hexDigU ((0x80 + v / 64 % 64) % 16) ::
      '%' :: hexDigU ((0x80 + v % 64) / 16) :: hexDigU ((0x80 + v % 64) % 16) :: t)).bind
        contVal = some (v / 4096 % 64)
    rw [readByte_pct (by omega) _]
    simpa using contVal_pct (by omega : v / 4096 % 64 < 64)
  have hd2 : contAt 6 ('%' :: hexDigU ((0xF0 + v / 262144) / 16) :: hexDigU ((0xF0 + v / 262144) % 16) ::
      '%' :: hexDigU ((0x80 + v / 4096 % 64) / 16) :: hexDigU ((0x80 + v / 4096 % 64) % 16) ::
      '%' :: hexDigU ((0x80 + v / 64 % 64) / 16) :: hexDigU ((0x80 + v / 64 % 64) % 16) ::
      '%' :: hexDigU ((0x80 + v % 64) / 16) :: hexDigU ((0x80 + v % 64) % 16) :: t) =
      some (v / 64 % 64) := by
    show (readByte ('%' :: hexDigU ((0x80 + v / 64 % 64) / 16) ::
      hexDigU ((0x80 + v / 64 % 64) % 16) ::
      '%' :: hexDigU ((0x80 + v % 64) / 16) :: hexDigU ((0x80 + v % 64) % 16) :: t)).bind
        contVal = some (v / 64 % 64)
    rw [readByte_pct (by omega) _]
    simpa using contVal_pct (by omega : v / 64 % 64 < 64)
  have hd3 : contAt 9 ('%' :: hexDigU ((0xF0 + v / 262144) / 16) :: hexDigU ((0xF0 + v / 262144) % 16) ::
      '%' :: hexDigU ((0x80 + v / 4096 % 64) / 16) :: hexDigU ((0x80 + v / 4096 % 64) % 16) ::
      '%' :: hexDigU ((0x80 + v / 64 % 64) / 16) :: hexDigU ((0x80 + v / 64 % 64) % 16) ::
      '%' :: hexDigU ((0x80 + v % 64) / 16) :: hexDigU ((0x80 + v % 64) % 16) :: t) =
      some (v % 64) := by
    show (readByte ('%' :: hexDigU ((0x80 + v % 64) / 16) ::
      hexDigU ((0x80 + v % 64) % 16) :: t)).bind contVal = some (v % 64)
    rw [readByte_pct (by omega) _]
    simpa using contVal_pct (by omega : v % 64 < 64)
  rw [hd1, hd2, hd3]
  simp only []
  rw [if_pos (by constructor <;> omega)]
  have : (0xF0 + v / 262144 - 0xF0) * 262144 + v / 4096 % 64 * 4096 + v / 64 % 64 * 64 + v % 64 = v := by
    omega
  rw [this]

theorem pdGo_skip2 (a b : Char) (t : List Char) : pdGo 2 (a :: b :: t) = pdGo 0 t := rfl

theorem pdGo_skip5 (a b c d e : Char) (t : List Char) :
    pdGo 5 (a :: b :: c :: d :: e :: t) = pdGo 0 t := rfl

theorem pdGo_skip8 (a b c d e f g h : Char) (t : List Char) :
    pdGo 8 (a :: b :: c :: d :: e :: f :: g :: h :: t) = pdGo 0 t := rfl

theorem pdGo_skip11 (a b c d e f g h i j k : Char) (t : List Char) :
    pdGo 11 (a :: b :: c :: d :: e :: f :: g :: h :: i :: j :: k :: t) = pdGo 0 t := rfl

theorem pd_encChar (c : Char) (t : List Char) :
    pdGo 0 (encChar c ++ t) = (pdGo 0 t).map (c :: ·) := by
  cases hu : uriUnreserved c with
  | true =>
    have hc : c ≠ '%' := by
      intro h
      rw [h] at hu
      exact absurd hu (by decide)
    simp only [encChar, hu, if_pos, List.singleton_append]
    simp only [pdGo]
    rw [if_neg hc]
  | false =>
    have hval := char_scalar c
    simp only [encChar, hu, Bool.false_eq_true, if_false]
    rcases Nat.lt_or_ge c.toNat 0x80 with h1 | h1
    · rw [show utf8Bytes c.toNat = [c.toNat] from by rw [utf8Bytes, if_pos h1]]
      simp only [List.flatMap_cons, List.flatMap_nil, List.append_nil, pctByte,
        List.cons_append, List.nil_append]
      simp only [pdGo]
      rw [if_true, readEsc_one h1 t]
      simp only []
      rw [pdGo_skip2, Char.ofNat_toNat]
    · rcases Nat.lt_or_ge c.toNat 0x800 with h2 | h2
      · rw [show utf8Bytes c.toNat = [0xC0 + c.toNat / 64, 0x80 + c.toNat % 64] from by
          rw [utf8Bytes, if_neg (by omega), if_pos h2]]
        simp only [List.flatMap_cons, List.flatMap_nil, List.append_nil, pctByte,
          List.cons_append, List.nil_append]
        simp only [pdGo]
        rw [if_true, readEsc_two h1 h2 t]
        simp only []
        rw [pdGo_skip5, Char.ofNat_toNat]
      · rcases Nat.lt_or_ge c.toNat 0x10000 with h3 | h3
        · have hs : ¬(0xD800 ≤ c.toNat ∧ c.toNat < 0xE000) := by omega
          rw [show utf8Bytes c.toNat =
              [0xE0 + c.toNat / 4096, 0x80 + c.toNat / 64 % 64, 0x80 + c.toNat % 64] from by
            rw [utf8Bytes, if_neg (by omega), if_neg (by omega), if_pos h3]]
          simp only [List.flatMap_cons, List.flatMap_nil, List.append_nil, pctByte,
            List.cons_append, List.nil_append]
          simp only [pdGo]
          rw [if_true, readEsc_three h2 h3 hs t]
          simp only []
          rw [pdGo_skip8, Char.ofNat_toNat]
        · have h4 : c.toNat < 0x110000 := by omega
          rw [show utf8Bytes c.toNat =
              [0xF0 + c.toNat / 262144, 0x80 + c.toNat / 4096 % 64,
                0x80 + c.toNat / 64 % 64, 0x80 + c.toNat % 64] from by
            rw [utf8Bytes, if_neg (by omega), if_neg (by omega), if_neg (by omega)]]
          simp only [List.flatMap_cons, List.flatMap_nil, List.append_nil, pctByte,
            List.cons_append, List.nil_append]
          simp only [pdGo]
          rw [if_true, readEsc_four h3 h4 t]
          simp only []
          rw [pdGo_skip11, Char.ofNat_toNat]

/-- The stored canonical source always decodes byte-for-byte:
`decodeURIComponent (encodeURIComponent m) = m`. -/
theorem percentDecode_encode (s : List Char) :
    percentDecode (encodeURIComponent s) = some s := by
  induction s with
  | nil => rfl
  | cons c rest ih =>
    have ih2 : pdGo 0 (encodeURIComponent rest) = some rest := ih
    show pdGo 0 (encChar c ++ encodeURIComponent rest) = some (c :: rest)
    rw [pd_encChar, ih2]
    rfl

/-! ## Shared string machinery for the converter -/

/-- The brace characters, named to keep string literals readable. -/
def lbrace : Char := Char.ofNat 123

def rbrace : Char := Char.ofNat 125

/-- JavaScript's whitespace class (`\s`, `String.prototype.trim`):
tab, line terminators, space, NBSP, the Unicode space separators and
the BOM. -/
def jsWs (c : Char) : Bool :=
  decide (c.toNat ∈ ([0x09, 0x0A, 0x0B, 0x0C, 0x0D, 0x20, 0xA0, 0x1680,
    0x2028, 0x2029, 0x202F, 0x205F, 0x3000, 0xFEFF] : List Nat) ∨
    (0x2000 ≤ c.toNat ∧ c.toNat ≤ 0x200A))

def jsTrimStart (s : List Char) : List Char := s.dropWhile jsWs

/-- Remove trailing JavaScript whitespace. -/
def jsTrimEnd : List Char → List Char
  | [] => []
  | c :: rest =>
    match jsTrimEnd rest with
    | [] => if jsWs c then [] else [c]
    | r => c :: r

def jsTrim (s : List Char) : List Char := jsTrimEnd (jsTrimStart s)

def natOfDigits (ds : List Char) : Nat :=
  ds.foldl (fun n c => 10 * n + (c.toNat - 48)) 0

/-! ## Forward compiler `latexToHtml`

The JavaScript function is a fixed chain of global
`String.prototype.replace` passes.  Every pass is embedded as a
left-to-right scanner driven by a matcher `tryM` which, at the current
position, either produces the replacement text together with the number
of consumed characters, or fails, in which case one character is copied
and scanning moves on — exactly the semantics of a global regex replace
whose matches are found in the input and never rescanned. -/

/-- Pure replacement pass (the `FORMATTING` chains). -/
def replGo (tryM : List Char → Option (List Char × Nat)) :
    Nat → List Char → List Char
  | n + 1, _ :: rest => replGo tryM n rest
  | _ + 1, [] => []
  | 0, [] => []
  | 0, c :: rest =>
    match tryM (c :: rest) with
    | some (out, k) => out ++ replGo tryM (k - 1) rest
    | none => c :: replGo tryM 0 rest

def replStage (tryM : List Char → Option (List Char × Nat))
    (s : List Char) : List Char :=
  replGo tryM 0 s

/-- Protecting pass: matched regions are pushed onto the protected-block
list and replaced by `__PROTECTED_BLOCK_<index>__` tokens.  The `Bool`
argument to the matcher says whether the previous character was a
backslash (the inline-math lookbehind). -/
def mkTok (n : Nat) : List Char :=
  "__PROTECTED_BLOCK_".toList ++ (Nat.repr n).toList ++ "__".toList

def protGo (tryM : Bool → List Char → Option (List Char × Nat)) :
    List (List Char) → Bool → Nat → List Char → List Char × List (List Char)
  | bs, _, n + 1, _ :: rest => protGo tryM bs false n rest
  | bs, _, _ + 1, [] => ([], bs)
  | bs, _, 0, [] => ([], bs)
  | bs, prev, 0, c :: rest =>
    match tryM prev (c :: rest) with
    | some (content, k) =>
      let r := protGo tryM (bs ++ [content]) false (k - 1) rest
      (mkTok bs.length ++ r.1, r.2)
    | none =>
      let r := protGo tryM bs (decide (c = '\\')) 0 rest
      (c :: r.1, r.2)

def protStage (tryM : Bool → List Char → Option (List Char × Nat))
    (p : List Char × List (List Char)) : List Char × List (List Char) :=
  protGo tryM p.2 false 0 p.1

/-- Matcher for `\begin…\end`-style protections: opening literal, then a
lazy capture up to the first closing literal. -/
def tryEnvProt (op cl : List Char) (render : List Char → List Char)
    (s : List Char) : Option (List Char × Nat) :=
  match stripPre op s with
  | none => none
  | some a =>
    match splitFirst cl a with
    | none => none
    | some (mid, _) =>
      some (render mid, op.length + mid.length + cl.length)

/-! ### The protected-region templates (verbatim source strings) -/

def preHtml (c : List Char) : List Char :=
  ("<pre class=\"bg-slate-100 p-3 rounded font-mono text-sm my-4 border " ++
    "border-slate-200 overflow-x-auto\" contenteditable=\"false\">").toList ++
  c ++ "</pre>".toList

/-- The checkbox-list fragment: the captured tail `i` (the text after
the first `\item[$\square$]` marker) is split on the remaining markers
and joined with `</li><li><input type="checkbox" disabled> `, a leading
`</li>` is stripped, and the result wrapped in the `<ul>` shell. -/
def checkboxHtml (i : List Char) : List Char :=
  let body := replAll "\\item[$\\square$]".toList
    "</li><li><input type=\"checkbox\" disabled> ".toList i
  let body2 := if startsW "</li>".toList body then body.drop 5 else body
  "<ul style=\"list-style-type: none;\">".toList ++ body2 ++ "</li></ul>".toList

/-- The Math Adapter (`window.katex`): absent, or an arbitrary total
rendering function (`renderToString` with `throwOnError: false`). -/
def renderMath (adapter : Option (List Char → Bool → List Char))
    (math : List Char) (displayMode : Bool) : List Char :=
  match adapter with
  | some f => f math displayMode
  | none =>
    if displayMode then
      "<div class=\"math-placeholder\">\\[".toList ++ math ++ "\\]</div>".toList
    else
      "<span class=\"math-placeholder\">$".toList ++ math ++ "$</span>".toList

def mathBlockHtml (adapter : Option (List Char → Bool → List Char))
    (m : List Char) : List Char :=
  ("<div class=\"math-block not-prose my-4 text-center cursor-pointer " ++
    "hover:bg-blue-50 transition-colors rounded py-2\" " ++
    "contenteditable=\"false\" data-latex=\"").toList ++
  encodeURIComponent m ++ "\">".toList ++ renderMath adapter m true ++
  "</div>".toList

def mathInlineHtml (adapter : Option (List Char → Bool → List Char))
    (m : List Char) : List Char :=
  ("<span class=\"math-inline not-prose px-1 cursor-pointer " ++
    "hover:bg-blue-50 transition-colors rounded\" " ++
    "contenteditable=\"false\" data-latex=\"").toList ++
  encodeURIComponent m ++ "\">".toList ++ renderMath adapter m false ++
  "</span>".toList

def codeHtml (c : List Char) : List Char :=
  "<code class=\"bg-slate-100 px-1.5 py-0.5 rounded text-sm font-mono text-pink-600\">".toList ++
  c ++ "</code>".toList

/-- Matcher for the checkbox-list protection: `\begin{itemize}`,
optional whitespace, a first `\item[$\square$]` marker, then a lazy
capture up to `\end{itemize}`. -/
def tryCheckbox (s : List Char) : Option (List Char × Nat) :=
  let op := "\\begin\x7bitemize\x7d".toList
  let mk := "\\item[$\\square$]".toList
  let cl := "\\end\x7bitemize\x7d".toList
  match stripPre op s with
  | none => none
  | some a =>
    let ws := a.takeWhile jsWs
    match stripPre mk (a.dropWhile jsWs) with
    | none => none
    | some a2 =>
      match splitFirst cl a2 with
      | none => none
      | some (mid, _) =>
        some (checkboxHtml mid,
          op.length + ws.length + mk.length + mid.length + cl.length)

/-- Matcher for inline math `(?<!\\)\$([^$]+?)\$`: a dollar not preceded
by a backslash, a non-empty dollar-free capture, a closing dollar. -/
def tryInline (adapter : Option (List Char → Bool → List Char)) :
    Bool → List Char → Option (List Char × Nat)
  | true, _ => none
  | false, [] => none
  | false, c :: rest =>
    if c = '$' then
      match splitFirst ['$'] rest with
      | some (mid, _) =>
        if mid = [] then none
        else some (mathInlineHtml adapter mid, mid.length + 2)
      | none => none
    else none

def protPipeline (adapter : Option (List Char → Bool → List Char))
    (s : List Char) : List Char × List (List Char) :=
  protStage (fun _ => tryEnvProt "\\texttt\x7b".toList [rbrace] codeHtml)
    (protStage (tryInline adapter)
      (protStage (fun _ => tryEnvProt "$$".toList "$$".toList (mathBlockHtml adapter))
        (protStage (fun _ => tryEnvProt "\\[".toList "\\]".toList (mathBlockHtml adapter))
          (protStage (fun _ => tryCheckbox)
            (protStage (fun _ => tryEnvProt "\\begin\x7bverbatim\x7d".toList
                "\\end\x7bverbatim\x7d".toList preHtml)
              (s, []))))))

/-! ### Formatting passes -/

/-- Matcher for `\cmd{…}` (optionally `\cmd\s*{…}`) with a lazy capture
to the first closing brace, rebuilt as `pre ++ capture ++ post`. -/
def tryCmdBrace (cmd : List Char) (allowWs : Bool) (pre post : List Char)
    (s : List Char) : Option (List Char × Nat) :=
  match stripPre cmd s with
  | none => none
  | some a =>
    let ws := if allowWs then a.takeWhile jsWs else []
    let a2 := if allowWs then a.dropWhile jsWs else a
    match stripPre [lbrace] a2 with
    | none => none
    | some b =>
      match splitFirst [rbrace] b with
      | none => none
      | some (mid, _) =>
        some (pre ++ mid ++ post, cmd.length + ws.length + 1 + mid.length + 1)

/-- Matcher for `\begin{X}…\end{X}` formatting environments. -/
def tryEnvFmt (op cl : List Char) (build : List Char → List Char)
    (s : List Char) : Option (List Char × Nat) :=
  match stripPre op s with
  | none => none
  | some a =>
    match splitFirst cl a with
    | none => none
    | some (mid, _) => some (build mid, op.length + mid.length + cl.length)

/-- Matcher for the size commands `\tiny\s+([\s\S]*?)(?=\\|\n|$)`: the
command word, at least one whitespace character (taken greedily), then
a lazy capture ended by a lookahead for a backslash, a newline or the
end of input (the delimiter is not consumed). -/
def trySize (cmd px : List Char) (s : List Char) : Option (List Char × Nat) :=
  match stripPre cmd s with
  | none => none
  | some a =>
    let ws := a.takeWhile jsWs
    if ws = [] then none
    else
      let mid := (a.dropWhile jsWs).takeWhile fun c => ¬(c = '\\' ∨ c = '\n')
      some ("<span style=\"font-size: ".toList ++ px ++ "\">".toList ++ mid ++
        "</span>".toList, cmd.length + ws.length + mid.length)

def isDigitB (c : Char) : Bool :=
  decide (48 ≤ c.toNat ∧ c.toNat ≤ 57)

def isAsciiAlpha (c : Char) : Bool :=
  decide ((65 ≤ c.toNat ∧ c.toNat ≤ 90) ∨ (97 ≤ c.toNat ∧ c.toNat ≤ 122))

def isHexDig (c : Char) : Bool :=
  decide ((48 ≤ c.toNat ∧ c.toNat ≤ 57) ∨ (65 ≤ c.toNat ∧ c.toNat ≤ 70) ∨
    (97 ≤ c.toNat ∧ c.toNat ≤ 102))

/-- First argument of `\textcolor`/`\colorbox`: a letter run or a
6-digit hex value (`[a-zA-Z]+|#[0-9a-fA-F]{6}`). -/
def parseColorArg (a : List Char) : Option (List Char × List Char) :=
  let run := a.takeWhile isAsciiAlpha
  if run ≠ [] then some (run, a.drop run.length)
  else
    match a with
    | '#' :: t =>
      if (t.take 6).length = 6 ∧ (t.take 6).all isHexDig then
        some ('#' :: t.take 6, t.drop 6)
      else none
    | _ => none

/-- Matcher for `\textcolor{ARG}{…}` / `\colorbox{ARG}{…}`. -/
def tryColorCmd (cmd : List Char) (styleProp : List Char)
    (s : List Char) : Option (List Char × Nat) :=
  match stripPre cmd s with
  | none => none
  | some a =>
    match parseColorArg a with
    | none => none
    | some (arg, rest1) =>
      match stripPre [rbrace, lbrace] rest1 with
      | none => none
      | some b =>
        match splitFirst [rbrace] b with
        | none => none
        | some (mid, _) =>
          some ("<span style=\"".toList ++ styleProp ++ ": ".toList ++ arg ++
            "\">".toList ++ mid ++ "</span>".toList,
            cmd.length + arg.length + 2 + mid.length + 1)

/-- Matcher for `\href{url}{text}`: the first capture is lazy, so it
extends to the first `}{` occurrence; the second to the next `}`. -/
def tryHref (s : List Char) : Option (List Char × Nat) :=
  match stripPre "\\href\x7b".toList s with
  | none => none
  | some a =>
    match splitFirst [rbrace, lbrace] a with
    | none => none
    | some (u, b) =>
      match splitFirst [rbrace] b with
      | none => none
      | some (v, _) =>
        some ("<a href=\"".toList ++ u ++ "\">".toList ++ v ++ "</a>".toList,
          6 + u.length + 2 + v.length + 1)

/-- Matcher for `\includegraphics[.*?]{…}` (the option capture uses `.`,
which does not cross line terminators). -/
def tryImgOpt (s : List Char) : Option (List Char × Nat) :=
  match stripPre "\\includegraphics[".toList s with
  | none => none
  | some a =>
    match splitFirst [']', lbrace] a with
    | none => none
    | some (u, b) =>
      if u.any (fun c => c = '\n' ∨ c = '\r' ∨ c.toNat = 0x2028 ∨ c.toNat = 0x2029) then
        none
      else
        match splitFirst [rbrace] b with
        | none => none
        | some (v, _) =>
          some ("<img src=\"".toList ++ v ++ "\" style=\"max-width:100%\" />".toList,
            17 + u.length + 2 + v.length + 1)

/-- `String.prototype.split` on a literal separator. -/
def splitOnGo (pat : List Char) : Nat → List Char → List (List Char)
  | n + 1, _ :: rest => splitOnGo pat n rest
  | _ + 1, [] => [[]]
  | 0, [] => [[]]
  | 0, c :: rest =>
    match stripPre pat (c :: rest) with
    | some _ => [] :: splitOnGo pat (pat.length - 1) rest
    | none =>
      match splitOnGo pat 0 rest with
      | s1 :: ss => (c :: s1) :: ss
      | [] => [[c]]

def splitOn (pat s : List Char) : List (List Char) :=
  if pat = [] then [s] else splitOnGo pat 0 s

/-- The generic list build: split on `\item`, drop blank items, wrap
each trimmed item in `<li>…</li>`. -/
def listItemsHtml (openTag closeTag : List Char) (i : List Char) : List Char :=
  openTag ++
    (((splitOn "\\item".toList i).filter fun t => jsTrim t ≠ []).map
      fun t => "<li>".toList ++ jsTrim t ++ "</li>".toList).flatten ++
  closeTag

/-- The `FORMATTING` chain of `latexToHtml`, in source order. -/
def fmtPipeline (s : List Char) : List Char :=
  let t := replStage (tryCmdBrace "\\section".toList true "<h1>".toList "</h1>".toList) s
  let t := replStage (tryCmdBrace "\\subsection".toList true "<h2>".toList "</h2>".toList) t
  let t := replStage (tryCmdBrace "\\subsubsection".toList true "<h3>".toList "</h3>".toList) t
  let t := replStage (tryCmdBrace "\\textbf".toList false "<b>".toList "</b>".toList) t
  let t := replStage (tryCmdBrace "\\textit".toList false "<i>".toList "</i>".toList) t
  let t := replStage (tryCmdBrace "\\underline".toList false "<u>".toList "</u>".toList) t
  let t := replStage (tryCmdBrace "\\textsf".toList false
    "<span style=\"font-family: sans-serif\">".toList "</span>".toList) t
  let t := replStage (trySize "\\tiny".toList "5pt".toList) t
  let t := replStage (trySize "\\scriptsize".toList "7pt".toList) t
  let t := replStage (trySize "\\footnotesize".toList "8pt".toList) t
  let t := replStage (trySize "\\small".toList "9pt".toList) t
  let t := replStage (trySize "\\normalsize".toList "10pt".toList) t
  let t := replStage (trySize "\\large".toList "12pt".toList) t
  let t := replStage (trySize "\\Large".toList "14.4pt".toList) t
  let t := replStage (trySize "\\LARGE".toList "17.28pt".toList) t
  let t := replStage (trySize "\\huge".toList "20.74pt".toList) t
  let t := replStage (trySize "\\Huge".toList "24.88pt".toList) t
  let t := replStage (tryColorCmd "\\textcolor\x7b".toList "color".toList) t
  let t := replStage (tryColorCmd "\\colorbox\x7b".toList "background-color".toList) t
  let t := replStage (tryEnvFmt "\\begin\x7bcenter\x7d".toList "\\end\x7bcenter\x7d".toList
    (fun m => "<div style=\"text-align: center\">".toList ++ m ++ "</div>".toList)) t
  let t := replStage (tryEnvFmt "\\begin\x7bflushright\x7d".toList "\\end\x7bflushright\x7d".toList
    (fun m => "<div style=\"text-align: right\">".toList ++ m ++ "</div>".toList)) t
  let t := replStage (tryEnvFmt "\\begin\x7bflushleft\x7d".toList "\\end\x7bflushleft\x7d".toList
    (fun m => "<div style=\"text-align: left\">".toList ++ m ++ "</div>".toList)) t
  let t := replStage tryHref t
  let t := replStage tryImgOpt t
  let t := replStage (tryCmdBrace "\\includegraphics".toList false
    "<img src=\"".toList "\" style=\"max-width:100%\" />".toList) t
  let t := replStage (tryEnvFmt "\\begin\x7bitemize\x7d".toList "\\end\x7bitemize\x7d".toList
    (listItemsHtml "<ul>".toList "</ul>".toList)) t
  let t := replStage (tryEnvFmt "\\begin\x7benumerate\x7d".toList "\\end\x7benumerate\x7d".toList
    (listItemsHtml "<ol>".toList "</ol>".toList)) t
  t

/-! ### Token restoration and assembly -/

/-- Matcher for `__PROTECTED_BLOCK_(\d+)__`. -/
def tryTok (s : List Char) : Option (List Char × Nat) :=
  match stripPre "__PROTECTED_BLOCK_".toList s with
  | none => none
  | some a =>
    let ds := a.takeWhile isDigitB
    if ds = [] then none
    else
      match stripPre "__".toList (a.drop ds.length) with
      | none => none
      | some _ => some (ds, 18 + ds.length + 2)

/-- JavaScript array lookup by the matched digit string: a
non-canonical (leading-zero) index or an out-of-range one reads
`undefined`, which the replacement stringifies. -/
def lookupTok (bs : List (List Char)) (ds : List Char) : List Char :=
  if 1 < ds.length ∧ ds.head? = some '0' then "undefined".toList
  else
    match bs.get? (natOfDigits ds) with
    | some b => b
    | none => "undefined".toList

def restoreGo (bs : List (List Char)) : Nat → List Char → List Char
  | n + 1, _ :: rest => restoreGo bs n rest
  | _ + 1, [] => []
  | 0, [] => []
  | 0, c :: rest =>
    match tryTok (c :: rest) with
    | some (ds, k) => lookupTok bs ds ++ restoreGo bs (k - 1) rest
    | none => c :: restoreGo bs 0 rest

/-- `latex.match(/\\begin{document}([\s\S]*?)\\end{document}/)`: body
between the document markers when both are present, else the whole
text. -/
def extractBody (s : List Char) : List Char :=
  match splitFirst "\\begin\x7bdocument\x7d".toList s with
  | none => s
  | some (_, a) =>
    match splitFirst "\\end\x7bdocument\x7d".toList a with
    | none => s
    | some (mid, _) => mid

/-- The forward compiler `latexToHtml`, parameterized by the optional
Math Adapter (`window.katex`). -/
def latexToHtml (adapter : Option (List Char → Bool → List Char))
    (latex : List Char) : List Char :=
  if latex = [] then []
  else
    let p := protPipeline adapter (extractBody latex)
    let c2 := fmtPipeline p.1
    let c3 := replAll "\\\\".toList "<br/>".toList c2
    let c4 := replAll "\n".toList " ".toList c3
    let c5 := unescapeLatex c4
    restoreGo p.2 0 c5

/-! ## Backward compiler `htmlToLatex`

`htmlToLatex` parses its input with `innerHTML` and walks the DOM; the
tree is modelled directly: text nodes and element nodes carrying the
tag (lowercase), class list, inline style declaration, the attributes
the walker reads (`href`, `src`, `data-latex`, `type`) and — for the
interactive math-editing inputs — a `value`. -/

structure Styles where
  color : List Char
  backgroundColor : List Char
  textAlign : List Char
  fontSize : List Char
  fontFamily : List Char

/-- All style properties unset (`node.style[prop]` reads `""`). -/
def noStyle : Styles := ⟨[], [], [], [], []⟩

structure ElemData where
  tag : List Char
  classes : List (List Char)
  style : Styles
  attrHref : Option (List Char)
  attrSrc : Option (List Char)
  dataLatex : Option (List Char)
  inputType : Option (List Char)
  value : List Char

inductive HNode where
  | htext (s : List Char)
  | helem (d : ElemData) (children : List HNode)

mutual

/-- `querySelector` over a child list: first element (document order,
depth-first) whose data satisfies `p`. -/
def qselNode (p : ElemData → Bool) : HNode → Option ElemData
  | HNode.htext _ => none
  | HNode.helem d ch => if p d then some d else qselList p ch

def qselList (p : ElemData → Bool) : List HNode → Option ElemData
  | [] => none
  | n :: ns =>
    match qselNode p n with
    | some e => some e
    | none => qselList p ns

end

mutual

/-- `textContent`. -/
def textContentNode : HNode → List Char
  | HNode.htext s => s
  | HNode.helem _ ch => textContentList ch

def textContentList : List HNode → List Char
  | [] => []
  | n :: ns => textContentNode n ++ textContentList ns

end

/-- `replace(/\s+/g, ' ')`: each whitespace run becomes one space. -/
def wsCollapseGo (inRun : Bool) : List Char → List Char
  | [] => []
  | c :: rest =>
    if jsWs c then
      if inRun then wsCollapseGo true rest else ' ' :: wsCollapseGo true rest
    else c :: wsCollapseGo false rest

def wsCollapse (s : List Char) : List Char := wsCollapseGo false s

/-- `^rgba?\(\s*(\d+)\s*,\s*(\d+)\s*,\s*(\d+)` (case-insensitive),
applied to the trimmed color string. -/
def parseDigitsRun (s : List Char) : Option (Nat × List Char) :=
  let ds := s.takeWhile isDigitB
  if ds = [] then none else some (natOfDigits ds, s.drop ds.length)

/-- The `\s*,` separator between two captured components. -/
def expectComma (r : List Char) : Option (List Char) :=
  match r.dropWhile jsWs with
  | ',' :: r' => some r'
  | _ => none

/-- The `\s*(\d+)\s*,\s*(\d+)\s*,\s*(\d+)` part of the color
pattern, after the opening parenthesis. -/
def matchRgbArgs (r3 : List Char) : Option (Nat × Nat × Nat) :=
  (parseDigitsRun (r3.dropWhile jsWs)).bind fun p1 =>
    (expectComma p1.2).bind fun r5 =>
      (parseDigitsRun (r5.dropWhile jsWs)).bind fun p2 =>
        (expectComma p2.2).bind fun r7 =>
          (parseDigitsRun (r7.dropWhile jsWs)).map fun p3 =>
            (p1.1, p2.1, p3.1)

def matchRgb (s : List Char) : Option (Nat × Nat × Nat) :=
  match s with
  | c1 :: c2 :: c3 :: rest =>
    if (c1 = 'r' ∨ c1 = 'R') ∧ (c2 = 'g' ∨ c2 = 'G') ∧ (c3 = 'b' ∨ c3 = 'B') then
      let afterParen : Option (List Char) :=
        match rest with
        | c4 :: r2 =>
          if c4 = 'a' ∨ c4 = 'A' then
            match r2 with
            | '(' :: r3 => some r3
            | _ => none
          else if c4 = '(' then some r2
          else none
        | [] => none
      match afterParen with
      | none => none
      | some r3 => matchRgbArgs r3
    else none
  | _ => none

/-- Lowercase hexadecimal digit (`Number.prototype.toString(16)`). -/
def hexDigL (n : Nat) : Char :=
  if n < 10 then Char.ofNat (48 + n) else Char.ofNat (87 + n)

/-- `toString(16).padStart(2, '0')` of a byte. -/
def hexByteL (b : Nat) : List Char :=
  if b < 16 then ['0', hexDigL b] else [hexDigL (b / 16), hexDigL (b % 16)]

/-- `rgbToHex` from the source: an `rgb(`/`rgba(`-form value becomes
`#rrggbb` with each component clamped to `0..255`; anything else is
returned unchanged. -/
def rgbToHex (color : List Char) : List Char :=
  match matchRgb (jsTrim color) with
  | none => color
  | some (r, g, b) =>
    '#' :: (hexByteL (min 255 r) ++ hexByteL (min 255 g) ++ hexByteL (min 255 b))

/-- `parseInt` (no radix argument): leading whitespace and sign, then
decimal digits, or hexadecimal digits after `0x`/`0X`; `NaN` if no
digit follows. -/
def parseIntAbs (r : List Char) : Option Nat :=
  match r with
  | '0' :: x :: rest =>
    if x = 'x' ∨ x = 'X' then
      let hs := rest.takeWhile isHexDig
      if hs = [] then none
      else some (hs.foldl (fun n c => 16 * n + (hexVal c).getD 0) 0)
    else (parseDigitsRun ('0' :: x :: rest)).map (·.1)
  | _ => (parseDigitsRun r).map (·.1)

def parseIntJS (s : List Char) : Option Int :=
  match s.dropWhile jsWs with
  | '-' :: r => (parseIntAbs r).map (fun n => -(n : Int))
  | '+' :: r => (parseIntAbs r).map (fun n => (n : Int))
  | t => (parseIntAbs t).map (fun n => (n : Int))

/-- The font-size bucketing if-chain of the walker; `none` is
`parseInt`'s `NaN`, on which every comparison is false. -/
def sizeCmdOf (s : Option Int) : List Char :=
  match s with
  | none => "\\normalsize ".toList
  | some v =>
    if v ≤ 6 then "\\tiny ".toList
    else if v ≤ 7 then "\\scriptsize ".toList
    else if v ≤ 8 then "\\footnotesize ".toList
    else if v ≤ 9 then "\\small ".toList
    else if v ≥ 24 then "\\Huge ".toList
    else if v ≥ 20 then "\\huge ".toList
    else if v ≥ 17 then "\\LARGE ".toList
    else if v ≥ 14 then "\\Large ".toList
    else if v ≥ 12 then "\\large ".toList
    else "\\normalsize ".toList

/-- The style prefix/suffix computation of the walker, split per
property.  The walker builds `prefix`/`suffix` imperatively in source
order: color and background append an opening wrapper to the prefix and
prepend `}` to the suffix; alignment wraps around everything built so
far; sans-serif appends/prepends; font size appends a prefix-only
command. -/
def colorOn (st : Styles) : Prop :=
  st.color ≠ [] ∧ st.color ≠ "inherit".toList ∧
    ¬containsB "black".toList st.color

instance (st : Styles) : Decidable (colorOn st) := by
  unfold colorOn; infer_instance

def bgOn (st : Styles) : Prop :=
  st.backgroundColor ≠ [] ∧ st.backgroundColor ≠ "inherit".toList ∧
    ¬containsB "rgba(0, 0, 0, 0)".toList st.backgroundColor

instance (st : Styles) : Decidable (bgOn st) := by
  unfold bgOn; infer_instance

def sfOn (st : Styles) : Prop :=
  st.fontFamily ≠ [] ∧ containsB "sans".toList st.fontFamily = true

instance (st : Styles) : Decidable (sfOn st) := by
  unfold sfOn; infer_instance

def colorOpen (st : Styles) : List Char :=
  if colorOn st then
    "\\textcolor\x7b".toList ++ rgbToHex st.color ++ "\x7d\x7b".toList
  else []

def colorClose (st : Styles) : List Char :=
  if colorOn st then [rbrace] else []

def bgOpen (st : Styles) : List Char :=
  if bgOn st then
    "\\colorbox\x7b".toList ++ rgbToHex st.backgroundColor ++ "\x7d\x7b".toList
  else []

def bgClose (st : Styles) : List Char :=
  if bgOn st then [rbrace] else []

def alignOpen (st : Styles) : List Char :=
  if st.textAlign = "center".toList then "\n\\begin\x7bcenter\x7d\n".toList
  else if st.textAlign = "right".toList then
    "\n\\begin\x7bflushright\x7d\n".toList
  else []

def alignClose (st : Styles) : List Char :=
  if st.textAlign = "center".toList then "\n\\end\x7bcenter\x7d\n".toList
  else if st.textAlign = "right".toList then
    "\n\\end\x7bflushright\x7d\n".toList
  else []

def sfOpen (st : Styles) : List Char :=
  if sfOn st then "\\textsf\x7b".toList else []

def sfClose (st : Styles) : List Char :=
  if sfOn st then [rbrace] else []

def sizeOpen (st : Styles) : List Char :=
  if st.fontSize ≠ [] then sizeCmdOf (parseIntJS st.fontSize) else []

def styleWrap (st : Styles) : List Char × List Char :=
  ((alignOpen st ++ (colorOpen st ++ bgOpen st) ++ sfOpen st) ++ sizeOpen st,
    sfClose st ++ ((bgClose st ++ colorClose st) ++ alignClose st))

/-- Per-tag emission (the `switch` of the walker).  `div`, `p`, `li`,
`br` return without the style prefix/suffix, exactly as the source
does. -/
def tagEmit (d : ElemData) (p sfx childContent : List Char)
    (ch : List HNode) : List Char :=
  if d.tag = "h1".toList then
    p ++ "\n\\section\x7b".toList ++ childContent ++ "\x7d\n".toList ++ sfx
  else if d.tag = "h2".toList then
    p ++ "\n\\subsection\x7b".toList ++ childContent ++ "\x7d\n".toList ++ sfx
  else if d.tag = "h3".toList then
    p ++ "\n\\subsubsection\x7b".toList ++ childContent ++ "\x7d\n".toList ++ sfx
  else if d.tag = "h4".toList then
    p ++ "\n\\paragraph\x7b".toList ++ childContent ++ "\x7d\n".toList ++ sfx
  else if d.tag = "b".toList ∨ d.tag = "strong".toList then
    p ++ "\\textbf\x7b".toList ++ childContent ++ "\x7d".toList ++ sfx
  else if d.tag = "i".toList ∨ d.tag = "em".toList then
    p ++ "\\textit\x7b".toList ++ childContent ++ "\x7d".toList ++ sfx
  else if d.tag = "u".toList then
    p ++ "\\underline\x7b".toList ++ childContent ++ "\x7d".toList ++ sfx
  else if d.tag = "a".toList then
    p ++ "\\href\x7b".toList ++ d.attrHref.getD "null".toList ++ "\x7d\x7b".toList ++
      childContent ++ "\x7d".toList ++ sfx
  else if d.tag = "img".toList then
    p ++ "\\includegraphics[width=\\linewidth]\x7b".toList ++
      d.attrSrc.getD "null".toList ++ "\x7d".toList ++ sfx
  else if d.tag = "ul".toList then
    p ++ "\n\\begin\x7bitemize\x7d\n".toList ++ childContent ++
      "\\end\x7bitemize\x7d\n".toList ++ sfx
  else if d.tag = "ol".toList then
    p ++ "\n\\begin\x7benumerate\x7d\n".toList ++ childContent ++
      "\\end\x7benumerate\x7d\n".toList ++ sfx
  else if d.tag = "li".toList then
    let isCheck := (qselList
      (fun e => e.tag = "input".toList ∧ e.inputType = some "checkbox".toList) ch).isSome
    "  \\item".toList ++
      (if isCheck then "[$\\square$] ".toList else [' ']) ++
      jsTrimStart childContent ++ ['\n']
  else if d.tag = "br".toList then []
  else if d.tag = "div".toList ∨ d.tag = "p".toList then
    "\n\n".toList ++ childContent ++ "\n\n".toList
  else p ++ childContent ++ sfx

mutual

/-- The recursive walker `traverse` of `htmlToLatex`. -/
def traverseNode : HNode → List Char
  | HNode.htext s => escapeLatex (wsCollapse s)
  | HNode.helem d ch =>
    if d.classes.contains "math-block".toList then
      let latex :=
        match qselList (fun e => e.tag = "textarea".toList) ch with
        | some e => e.value
        | none => (percentDecode (d.dataLatex.getD [])).getD []
      "\n\\[\n".toList ++ latex ++ "\n\\]\n".toList
    else if d.classes.contains "math-inline".toList then
      let latex :=
        match qselList (fun e => e.tag = "input".toList) ch with
        | some e => e.value
        | none => (percentDecode (d.dataLatex.getD [])).getD []
      "$".toList ++ latex ++ "$".toList
    else if d.tag = "pre".toList then
      "\n\\begin\x7bverbatim\x7d\n".toList ++ textContentList ch ++
        "\n\\end\x7bverbatim\x7d\n".toList
    else if d.tag = "code".toList then
      "\\texttt\x7b".toList ++ textContentList ch ++ "\x7d".toList
    else
      let cc := traverseList ch
      let ps := styleWrap d.style
      tagEmit d ps.1 ps.2 cc ch

def traverseList : List HNode → List Char
  | [] => []
  | n :: ns => traverseNode n ++ traverseList ns

end

/-- Final normalization: collapse every run of three or more newlines
to two (`\n{3,}` → `\n\n`), i.e. any stack of blank lines to a single
blank line. -/
def collapseNlGo (run : Nat) : List Char → List Char
  | [] => if run ≥ 3 then ['\n', '\n'] else List.replicate run '\n'
  | c :: rest =>
    if c = '\n' then collapseNlGo (run + 1) rest
    else
      (if run ≥ 3 then ['\n', '\n'] else List.replicate run '\n') ++
        c :: collapseNlGo 0 rest

def collapseNl (s : List Char) : List Char := collapseNlGo 0 s

/-- The backward compiler: walk every top-level node, join, collapse
blank-line runs, trim. -/
def htmlToLatex (nodes : List HNode) : List Char :=
  jsTrim (collapseNl (traverseList nodes))

/-! ## Generic facts about the scanners -/

theorem stripPre_sound {pat s r : List Char} (h : stripPre pat s = some r) :
    s = pat ++ r := by
  induction pat generalizing s with
  | nil =>
    simp only [stripPre, Option.some_inj] at h
    simp [h]
  | cons p ps ih =>
    cases s with
    | nil => simp [stripPre] at h
    | cons c rest =>
      simp only [stripPre] at h
      by_cases hpc : p = c
      · rw [if_pos hpc] at h
        rw [List.cons_append, ← ih h, hpc]
      · rw [if_neg hpc] at h
        exact absurd h (by simp)

theorem stripPre_self (pat r : List Char) : stripPre pat (pat ++ r) = some r := by
  induction pat with
  | nil => rfl
  | cons p ps ih => simp [stripPre, ih]

theorem startsW_mono {pat s : List Char} (h : startsW pat s = true) (t : List Char) :
    startsW pat (s ++ t) = true := by
  unfold startsW at h ⊢
  cases hs : stripPre pat s with
  | none => rw [hs] at h; simp at h
  | some r =>
    have : s ++ t = pat ++ (r ++ t) := by
      rw [stripPre_sound hs, List.append_assoc]
    rw [this, stripPre_self]
    rfl

theorem startsW_self (pat r : List Char) : startsW pat (pat ++ r) = true := by
  unfold startsW
  rw [stripPre_self]
  rfl

theorem splitFirst_sound {pat s a b : List Char}
    (h : splitFirst pat s = some (a, b)) : s = a ++ pat ++ b := by
  induction s generalizing a with
  | nil => simp [splitFirst] at h
  | cons c rest ih =>
    simp only [splitFirst] at h
    cases hs : stripPre pat (c :: rest) with
    | some rem =>
      rw [hs] at h
      simp only [Option.some_inj, Prod.mk.injEq] at h
      rw [← h.1, ← h.2, List.nil_append]
      exact stripPre_sound hs
    | none =>
      rw [hs] at h
      cases hrec : splitFirst pat rest with
      | none => rw [hrec] at h; simp at h
      | some p =>
        rw [hrec] at h
        cases p with
        | mk a2 b2 =>
          simp only [Option.some_inj, Prod.mk.injEq] at h
          obtain ⟨h1, h2⟩ := h
          subst h1
          subst h2
          rw [ih hrec]
          simp

theorem containsB_cons_of {pat rest : List Char} (c : Char)
    (h : containsB pat rest = true) : containsB pat (c :: rest) = true := by
  simp [containsB, h]

theorem containsB_append_right {pat t : List Char} (h : containsB pat t = true)
    (s : List Char) : containsB pat (s ++ t) = true := by
  induction s with
  | nil => simpa
  | cons c s ih => exact containsB_cons_of c ih

theorem containsB_append_left {pat s : List Char} (h : containsB pat s = true)
    (t : List Char) : containsB pat (s ++ t) = true := by
  induction s with
  | nil =>
    simp only [containsB] at h
    have : pat = [] := by
      cases pat with
      | nil => rfl
      | cons p ps => simp [startsW, stripPre] at h
    simp [this, containsB, startsW, stripPre]
    cases t <;> simp [containsB, startsW, stripPre]
  | cons c s ih =>
    simp only [containsB, Bool.or_eq_true] at h
    rcases h with h | h
    · have : (c :: s) ++ t = (c :: s) ++ t := rfl
      simp only [containsB, Bool.or_eq_true]
      exact Or.inl (startsW_mono h t)
    · simp only [List.cons_append, containsB, Bool.or_eq_true]
      exact Or.inr (ih h)

theorem containsB_of_startsW {pat s : List Char} (h : startsW pat s = true) :
    containsB pat s = true := by
  cases s with
  | nil => simpa [containsB]
  | cons c rest => simp [containsB, h]

theorem containsB_of_splitFirst {pat s a b : List Char}
    (h : splitFirst pat s = some (a, b)) : containsB pat s = true := by
  rw [splitFirst_sound h, List.append_assoc]
  exact containsB_append_right (containsB_of_startsW (startsW_self pat b)) a

/-- Does a pure matcher fire anywhere in `s`? -/
def fires (tryM : List Char → Option (List Char × Nat)) : List Char → Bool
  | [] => (tryM []).isSome
  | c :: rest => (tryM (c :: rest)).isSome || fires tryM rest

/-- A pass whose matcher never fires copies its input verbatim. -/
theorem replGo_id {tryM : List Char → Option (List Char × Nat)} {s : List Char}
    (h : fires tryM s = false) : replGo tryM 0 s = s := by
  induction s with
  | nil => rfl
  | cons c rest ih =>
    simp only [fires, Bool.or_eq_false_iff] at h
    rw [replGo]
    cases htm : tryM (c :: rest) with
    | some p => rw [htm] at h; simp at h
    | none => simp [ih h.2]

/-- Same, tracking the previous-character flag of the protecting
scanner. -/
def fires2 (tryM : Bool → List Char → Option (List Char × Nat)) :
    Bool → List Char → Bool
  | prev, [] => (tryM prev []).isSome
  | prev, c :: rest =>
    (tryM prev (c :: rest)).isSome || fires2 tryM (decide (c = '\\')) rest

theorem protGo_id {tryM : Bool → List Char → Option (List Char × Nat)}
    {bs : List (List Char)} {prev : Bool} {s : List Char}
    (h : fires2 tryM prev s = false) : protGo tryM bs prev 0 s = (s, bs) := by
  induction s generalizing prev with
  | nil => rfl
  | cons c rest ih =>
    simp only [fires2, Bool.or_eq_false_iff] at h
    rw [protGo]
    cases htm : tryM prev (c :: rest) with
    | some p => rw [htm] at h; simp at h
    | none => simp [ih h.2]

/-- Whether `tryEnvProt` fires does not depend on the rendering
function. -/
def envFiresB (op cl : List Char) : List Char → Bool :=
  fires (tryEnvProt op cl id)

theorem tryEnvProt_isSome (op cl : List Char) (rend : List Char → List Char)
    (s : List Char) :
    (tryEnvProt op cl rend s).isSome = (tryEnvProt op cl id s).isSome := by
  unfold tryEnvProt
  cases stripPre op s with
  | none => rfl
  | some a =>
    dsimp only
    cases splitFirst cl a with
    | none => rfl
    | some p =>
      cases p with
      | mk mid q => rfl

theorem fires_envProt (op cl : List Char) (rend : List Char → List Char)
    (s : List Char) :
    fires (tryEnvProt op cl rend) s = envFiresB op cl s := by
  unfold envFiresB
  induction s with
  | nil => simp [fires, tryEnvProt_isSome]
  | cons c rest ih => simp [fires, tryEnvProt_isSome, ih]

/-- A prev-flag-insensitive matcher in the protecting scanner. -/
theorem fires2_const (f : List Char → Option (List Char × Nat))
    (prev : Bool) (s : List Char) :
    fires2 (fun _ => f) prev s = fires f s := by
  induction s generalizing prev with
  | nil => rfl
  | cons c rest ih => simp [fires2, fires, ih]

/-- Whether the inline-math matcher fires does not depend on the Math
Adapter. -/
theorem tryInline_isSome (a1 a2 : Option (List Char → Bool → List Char))
    (prev : Bool) (s : List Char) :
    (tryInline a1 prev s).isSome = (tryInline a2 prev s).isSome := by
  cases prev with
  | true => rfl
  | false =>
    cases s with
    | nil => rfl
    | cons c rest =>
      simp only [tryInline]
      by_cases hc : c = '$'
      · rw [if_pos hc, if_pos hc]
        cases hsp : splitFirst ['$'] rest with
        | none => rfl
        | some p =>
          cases p with
          | mk mid q =>
            by_cases hm : mid = []
            · simp [hm]
            · simp [hm]
      · rw [if_neg hc, if_neg hc]

theorem fires2_inline (a1 a2 : Option (List Char → Bool → List Char))
    (prev : Bool) (s : List Char) :
    fires2 (tryInline a1) prev s = fires2 (tryInline a2) prev s := by
  induction s generalizing prev with
  | nil => simp [fires2, tryInline_isSome a1 a2]
  | cons c rest ih => simp [fires2, tryInline_isSome a1 a2, ih]

/-- A matcher that implies the presence of its closing literal never
fires when the closing literal is absent. -/
theorem fires_false_of {tryM : List Char → Option (List Char × Nat)}
    {cl s : List Char}
    (hsub : ∀ t r, tryM t = some r → containsB cl t = true)
    (h : containsB cl s = false) : fires tryM s = false := by
  induction s with
  | nil =>
    show (tryM []).isSome = false
    cases ht : tryM [] with
    | some r => rw [hsub [] r ht] at h; exact absurd h (by simp)
    | none => rfl
  | cons c rest ih =>
    simp only [containsB, Bool.or_eq_false_iff] at h
    show ((tryM (c :: rest)).isSome || fires tryM rest) = false
    cases ht : tryM (c :: rest) with
    | some r =>
      have hcon := hsub _ r ht
      rw [show containsB cl (c :: rest) =
        (startsW cl (c :: rest) || containsB cl rest) from rfl, h.1, h.2] at hcon
      simp at hcon
    | none => simp [ih h.2]

theorem tryEnvFmt_contains {op cl : List Char} {b : List Char → List Char}
    {t : List Char} {r : List Char × Nat} (h : tryEnvFmt op cl b t = some r) :
    containsB cl t = true := by
  unfold tryEnvFmt at h
  cases hs : stripPre op t with
  | none => rw [hs] at h; simp at h
  | some a =>
    simp only [hs] at h
    cases hsp : splitFirst cl a with
    | none => simp [hsp] at h
    | some p =>
      cases p with
      | mk mid q =>
        rw [stripPre_sound hs]
        exact containsB_append_right (containsB_of_splitFirst hsp) op

theorem tryEnvProt_contains {op cl : List Char} {rend : List Char → List Char}
    {t : List Char} {r : List Char × Nat} (h : tryEnvProt op cl rend t = some r) :
    containsB cl t = true := by
  unfold tryEnvProt at h
  cases hs : stripPre op t with
  | none => rw [hs] at h; simp at h
  | some a =>
    simp only [hs] at h
    cases hsp : splitFirst cl a with
    | none => simp [hsp] at h
    | some p =>
      cases p with
      | mk mid q =>
        rw [stripPre_sound hs]
        exact containsB_append_right (containsB_of_splitFirst hsp) op

/-- A formatting environment whose closing marker is absent passes
through verbatim. -/
theorem replStage_id_of_no_close (op cl : List Char) (b : List Char → List Char)
    {s : List Char} (h : containsB cl s = false) :
    replStage (tryEnvFmt op cl b) s = s :=
  replGo_id (fires_false_of (fun _ _ => tryEnvFmt_contains) h)

/-- A protecting environment whose closing marker is absent passes
through verbatim, leaving the protected-block list unchanged. -/
theorem protGo_id_of_no_close (op cl : List Char) (rend : List Char → List Char)
    {bs : List (List Char)} {prev : Bool} {s : List Char}
    (h : containsB cl s = false) :
    protGo (fun _ => tryEnvProt op cl rend) bs prev 0 s = (s, bs) := by
  apply protGo_id
  rw [fires2_const]
  exact fires_false_of (fun _ _ => tryEnvProt_contains) h

/-- Once a match has been consumed, skipping to its end leaves the rest
of the scan unchanged; consuming the entire remaining input yields
nothing more. -/
theorem protGo_consume {tryM : Bool → List Char → Option (List Char × Nat)}
    {bs : List (List Char)} {prev : Bool} {k : Nat} {l : List Char}
    (h : l.length ≤ k) : protGo tryM bs prev k l = ([], bs) := by
  induction l generalizing k prev with
  | nil =>
    cases k with
    | zero => rfl
    | succ k2 => rfl
  | cons c rest ih =>
    cases k with
    | zero => simp at h
    | succ k2 =>
      show protGo tryM bs false k2 rest = ([], bs)
      exact ih (by simpa using h)

/-- Splitting on a single-character marker absent from `m`. -/
theorem splitFirst_single_marker {c : Char} {m r : List Char} (h : c ∉ m) :
    splitFirst [c] (m ++ c :: r) = some (m, r) := by
  induction m with
  | nil => simp [splitFirst, stripPre]
  | cons x m2 ih =>
    have hxc : ¬c = x := fun he => h (by simp [he])
    have hrec := ih (fun hm => h (by simp [hm]))
    simp only [List.cons_append, splitFirst, stripPre, if_neg hxc,
      List.append_eq, hrec]

/-- Splitting on a two-character closing literal directly after `m`,
when the literal does not occur in `m` and `m` does not end with the
literal's first character (no straddling occurrence). -/
theorem splitFirst_close2 {a b : Char} {m : List Char}
    (hc : containsB [a, b] m = false) (hl : m.getLast? ≠ some a) :
    splitFirst [a, b] (m ++ [a, b]) = some (m, []) := by
  induction m with
  | nil => simp [splitFirst, stripPre]
  | cons x m2 ih =>
    have hcp : startsW [a, b] (x :: m2) = false ∧ containsB [a, b] m2 = false := by
      have := hc
      rw [show containsB [a, b] (x :: m2) =
        (startsW [a, b] (x :: m2) || containsB [a, b] m2) from rfl] at this
      exact ⟨by revert this; cases startsW [a, b] (x :: m2) <;> simp,
        by revert this; cases containsB [a, b] m2 <;> simp⟩
    have hl2 : m2.getLast? ≠ some a := by
      cases m2 with
      | nil => simp
      | cons y m3 =>
        rw [List.getLast?_cons_cons] at hl
        exact hl
    have hrec := ih hcp.2 hl2
    have hnone : stripPre [a, b] (x :: (m2 ++ [a, b])) = none := by
      by_cases hax : a = x
      · cases m2 with
        | nil =>
          exfalso
          exact hl (by simp [← hax])
        | cons y m3 =>
          by_cases hby : b = y
          · exfalso
            have hst : startsW [a, b] (x :: y :: m3) = true := by
              simp [startsW, stripPre, hax, hby]
            rw [hst] at hcp
            simp at hcp
          · simp [stripPre, hax, hby]
      · simp [stripPre, hax]
    rw [List.cons_append]
    simp only [splitFirst, hnone, hrec]

/-- A protecting environment matching the entire input: the whole body
becomes the first token and the rendered content is stored. -/
theorem protGo_match_env (o : Char) (op' cl : List Char)
    (rend : List Char → List Char) (bs : List (List Char)) (m : List Char)
    (hsplit : splitFirst cl (m ++ cl) = some (m, [])) :
    protGo (fun _ => tryEnvProt (o :: op') cl rend) bs false 0
        ((o :: op') ++ (m ++ cl)) =
      (mkTok bs.length, bs ++ [rend m]) := by
  have htry : tryEnvProt (o :: op') cl rend (o :: (op' ++ (m ++ cl))) =
      some (rend m, (o :: op').length + m.length + cl.length) := by
    unfold tryEnvProt
    rw [show o :: (op' ++ (m ++ cl)) = (o :: op') ++ (m ++ cl) from rfl,
      stripPre_self]
    simp [hsplit]
  rw [List.cons_append]
  simp only [protGo, htry]
  rw [protGo_consume (by simp [List.length_append]; omega)]
  simp

/-- Inline math matching the entire input. -/
theorem protGo_match_inline (adapter : Option (List Char → Bool → List Char))
    (bs : List (List Char)) (m : List Char) (h1 : m ≠ []) (h2 : '$' ∉ m) :
    protGo (tryInline adapter) bs false 0 ('$' :: (m ++ ['$'])) =
      (mkTok bs.length, bs ++ [mathInlineHtml adapter m]) := by
  have htry : tryInline adapter false ('$' :: (m ++ ['$'])) =
      some (mathInlineHtml adapter m, m.length + 2) := by
    simp only [tryInline, if_pos rfl]
    rw [show m ++ ['$'] = m ++ '$' :: [] from rfl, splitFirst_single_marker h2]
    simp [h1]
  simp only [protGo, htry]
  rw [protGo_consume (by simp)]
  simp

/-- Restoring a single stored block from its token. -/
theorem restore_single (x : List Char) : restoreGo [x] 0 (mkTok 0) = x := by
  rw [show mkTok 0 = '_' :: "_PROTECTED_BLOCK_0__".toList from by decide]
  simp only [restoreGo,
    show tryTok ('_' :: "_PROTECTED_BLOCK_0__".toList) = some (['0'], 21) from by decide]
  rw [show lookupTok [x] ['0'] = x from rfl]
  simp

/-- Forward conversion of a body that is exactly one inline math
region. -/
theorem latexToHtml_inline_math (adapter : Option (List Char → Bool → List Char))
    (m : List Char) (h1 : m ≠ []) (h2 : '$' ∉ m)
    (hdoc : extractBody ('$' :: (m ++ ['$'])) = '$' :: (m ++ ['$']))
    (hvrb : containsB "\\end\x7bverbatim\x7d".toList ('$' :: (m ++ ['$'])) = false)
    (hcb : fires tryCheckbox ('$' :: (m ++ ['$'])) = false)
    (hdm : containsB "\\]".toList ('$' :: (m ++ ['$'])) = false)
    (hdd : containsB "$$".toList ('$' :: (m ++ ['$'])) = false) :
    latexToHtml adapter ('$' :: (m ++ ['$'])) = mathInlineHtml adapter m := by
  have s1 : protGo (fun _ => tryEnvProt "\\begin\x7bverbatim\x7d".toList
      "\\end\x7bverbatim\x7d".toList preHtml) [] false 0 ('$' :: (m ++ ['$'])) =
      ('$' :: (m ++ ['$']), []) := protGo_id_of_no_close _ _ _ hvrb
  have s2 : protGo (fun _ => tryCheckbox) [] false 0 ('$' :: (m ++ ['$'])) =
      ('$' :: (m ++ ['$']), []) := protGo_id (by rw [fires2_const]; exact hcb)
  have s3 : protGo (fun _ => tryEnvProt "\\[".toList "\\]".toList
      (mathBlockHtml adapter)) [] false 0 ('$' :: (m ++ ['$'])) =
      ('$' :: (m ++ ['$']), []) := protGo_id_of_no_close _ _ _ hdm
  have s4 : protGo (fun _ => tryEnvProt "$$".toList "$$".toList
      (mathBlockHtml adapter)) [] false 0 ('$' :: (m ++ ['$'])) =
      ('$' :: (m ++ ['$']), []) := protGo_id_of_no_close _ _ _ hdd
  have s5 : protGo (tryInline adapter) [] false 0 ('$' :: (m ++ ['$'])) =
      (mkTok 0, [mathInlineHtml adapter m]) := by
    have := protGo_match_inline adapter [] m h1 h2
    simpa using this
  have s6 : protGo (fun _ => tryEnvProt "\\texttt\x7b".toList [rbrace] codeHtml)
      [mathInlineHtml adapter m] false 0 (mkTok 0) =
      (mkTok 0, [mathInlineHtml adapter m]) := protGo_id (by
    rw [fires2_const, fires_envProt]
    decide)
  rw [latexToHtml, if_neg (by simp), hdoc]
  unfold protPipeline protStage
  simp only [s1, s2, s3, s4, s5, s6]
  rw [show unescapeLatex (replAll "\n".toList " ".toList
      (replAll "\\\\".toList "<br/>".toList (fmtPipeline (mkTok 0)))) = mkTok 0 from by decide]
  exact restore_single _

/-- Forward conversion of a body that is exactly one bracket-delimited
display math region. -/
theorem latexToHtml_display_math (adapter : Option (List Char → Bool → List Char))
    (m : List Char)
    (hm : containsB "\\]".toList m = false) (hlast : m.getLast? ≠ some '\\')
    (hdoc : extractBody ("\\[".toList ++ (m ++ "\\]".toList)) =
      "\\[".toList ++ (m ++ "\\]".toList))
    (hvrb : containsB "\\end\x7bverbatim\x7d".toList
      ("\\[".toList ++ (m ++ "\\]".toList)) = false)
    (hcb : fires tryCheckbox ("\\[".toList ++ (m ++ "\\]".toList)) = false) :
    latexToHtml adapter ("\\[".toList ++ (m ++ "\\]".toList)) =
      mathBlockHtml adapter m := by
  have hsplit : splitFirst "\\]".toList (m ++ "\\]".toList) = some (m, []) :=
    splitFirst_close2 hm hlast
  have s1 : protGo (fun _ => tryEnvProt "\\begin\x7bverbatim\x7d".toList
      "\\end\x7bverbatim\x7d".toList preHtml) [] false 0
      ("\\[".toList ++ (m ++ "\\]".toList)) =
      ("\\[".toList ++ (m ++ "\\]".toList), []) := protGo_id_of_no_close _ _ _ hvrb
  have s2 : protGo (fun _ => tryCheckbox) [] false 0
      ("\\[".toList ++ (m ++ "\\]".toList)) =
      ("\\[".toList ++ (m ++ "\\]".toList), []) :=
    protGo_id (by rw [fires2_const]; exact hcb)
  have s3 : protGo (fun _ => tryEnvProt "\\[".toList "\\]".toList
      (mathBlockHtml adapter)) [] false 0 ("\\[".toList ++ (m ++ "\\]".toList)) =
      (mkTok 0, [mathBlockHtml adapter m]) := by
    have := protGo_match_env '\\' "[".toList "\\]".toList (mathBlockHtml adapter)
      [] m hsplit
    simpa using this
  have s4 : protGo (fun _ => tryEnvProt "$$".toList "$$".toList
      (mathBlockHtml adapter)) [mathBlockHtml adapter m] false 0 (mkTok 0) =
      (mkTok 0, [mathBlockHtml adapter m]) :=
    protGo_id (by rw [fires2_const, fires_envProt]; decide)
  have s5 : protGo (tryInline adapter) [mathBlockHtml adapter m] false 0 (mkTok 0) =
      (mkTok 0, [mathBlockHtml adapter m]) :=
    protGo_id (by rw [fires2_inline adapter none]; decide)
  have s6 : protGo (fun _ => tryEnvProt "\\texttt\x7b".toList [rbrace] codeHtml)
      [mathBlockHtml adapter m] false 0 (mkTok 0) =
      (mkTok 0, [mathBlockHtml adapter m]) :=
    protGo_id (by rw [fires2_const, fires_envProt]; decide)
  rw [latexToHtml, if_neg (by simp), hdoc]
  unfold protPipeline protStage
  simp only [s1, s2, s3, s4, s5, s6]
  rw [show unescapeLatex (replAll "\n".toList " ".toList
      (replAll "\\\\".toList "<br/>".toList (fmtPipeline (mkTok 0)))) = mkTok 0 from by decide]
  exact restore_single _

/-- Forward conversion of a body that is exactly one `$$`-delimited
display math region. -/
theorem latexToHtml_dollars_math (adapter : Option (List Char → Bool → List Char))
    (m : List Char)
    (hm : containsB "$$".toList m = false) (hlast : m.getLast? ≠ some '$')
    (hdoc : extractBody ("$$".toList ++ (m ++ "$$".toList)) =
      "$$".toList ++ (m ++ "$$".toList))
    (hvrb : containsB "\\end\x7bverbatim\x7d".toList
      ("$$".toList ++ (m ++ "$$".toList)) = false)
    (hcb : fires tryCheckbox ("$$".toList ++ (m ++ "$$".toList)) = false)
    (hdm : containsB "\\]".toList ("$$".toList ++ (m ++ "$$".toList)) = false) :
    latexToHtml adapter ("$$".toList ++ (m ++ "$$".toList)) =
      mathBlockHtml adapter m := by
  have hsplit : splitFirst "$$".toList (m ++ "$$".toList) = some (m, []) :=
    splitFirst_close2 hm hlast
  have s1 : protGo (fun _ => tryEnvProt "\\begin\x7bverbatim\x7d".toList
      "\\end\x7bverbatim\x7d".toList preHtml) [] false 0
      ("$$".toList ++ (m ++ "$$".toList)) =
      ("$$".toList ++ (m ++ "$$".toList), []) := protGo_id_of_no_close _ _ _ hvrb
  have s2 : protGo (fun _ => tryCheckbox) [] false 0
      ("$$".toList ++ (m ++ "$$".toList)) =
      ("$$".toList ++ (m ++ "$$".toList), []) :=
    protGo_id (by rw [fires2_const]; exact hcb)
  have s3 : protGo (fun _ => tryEnvProt "\\[".toList "\\]".toList
      (mathBlockHtml adapter)) [] false 0 ("$$".toList ++ (m ++ "$$".toList)) =
      ("$$".toList ++ (m ++ "$$".toList), []) := protGo_id_of_no_close _ _ _ hdm
  have s4 : protGo (fun _ => tryEnvProt "$$".toList "$$".toList
      (mathBlockHtml adapter)) [] false 0 ("$$".toList ++ (m ++ "$$".toList)) =
      (mkTok 0, [mathBlockHtml adapter m]) := by
    have := protGo_match_env '$' "$".toList "$$".toList (mathBlockHtml adapter)
      [] m hsplit
    simpa using this
  have s5 : protGo (tryInline adapter) [mathBlockHtml adapter m] false 0 (mkTok 0) =
      (mkTok 0, [mathBlockHtml adapter m]) :=
    protGo_id (by rw [fires2_inline adapter none]; decide)
  have s6 : protGo (fun _ => tryEnvProt "\\texttt\x7b".toList [rbrace] codeHtml)
      [mathBlockHtml adapter m] false 0 (mkTok 0) =
      (mkTok 0, [mathBlockHtml adapter m]) :=
    protGo_id (by rw [fires2_const, fires_envProt]; decide)
  rw [latexToHtml, if_neg (by simp), hdoc]
  unfold protPipeline protStage
  simp only [s1, s2, s3, s4, s5, s6]
  rw [show unescapeLatex (replAll "\n".toList " ".toList
      (replAll "\\\\".toList "<br/>".toList (fmtPipeline (mkTok 0)))) = mkTok 0 from by decide]
  exact restore_single _

/-- The backward walker on a math-block node with no live editor
child: the canonical source is decoded from the attribute. -/
theorem traverse_math_block (d : ElemData) (ch : List HNode) (m : List Char)
    (hcls : d.classes.contains "math-block".toList = true)
    (hattr : d.dataLatex = some (encodeURIComponent m))
    (hq : qselList (fun e => e.tag = "textarea".toList) ch = none) :
    traverseNode (HNode.helem d ch) = "\n\\[\n".toList ++ m ++ "\n\\]\n".toList := by
  unfold traverseNode
  simp only [hcls, if_pos, hq, hattr]
  rw [show (some (encodeURIComponent m)).getD [] = encodeURIComponent m from rfl,
    percentDecode_encode]
  rfl

/-- The backward walker on a math-inline node with no live editor
child. -/
theorem traverse_math_inline (d : ElemData) (ch : List HNode) (m : List Char)
    (hnb : d.classes.contains "math-block".toList = false)
    (hcls : d.classes.contains "math-inline".toList = true)
    (hq : qselList (fun e => e.tag = "input".toList) ch = none) :
    d.dataLatex = some (encodeURIComponent m) →
    traverseNode (HNode.helem d ch) = '$' :: (m ++ ['$']) := by
  intro hattr
  unfold traverseNode
  simp only [hnb, hcls, if_pos, Bool.false_eq_true, if_false, hq, hattr]
  rw [show (some (encodeURIComponent m)).getD [] = encodeURIComponent m from rfl,
    percentDecode_encode]
  rfl

/-- C2: a math region round-trips byte-for-byte.  The canonical source
is stored percent-encoded in the `data-latex` attribute of the math
node built by `latexToHtml` (visible in `mathInlineHtml` /
`mathBlockHtml`, which are emitted whatever the Math Adapter is, the
adapter only affecting the rendered preview); `decodeURIComponent ∘
encodeURIComponent` is the identity; and backward compilation emits
exactly the decoded attribute wrapped in the original delimiters.  The
side conditions say precisely that the body parses as a single math
region: the math text is non-empty and free of its own closing
delimiter, and no earlier protection pass (document envelope, verbatim,
checkbox list, bracket display math) consumes part of the body. -/
theorem claim2_math_canonical_source_roundtrip :
    (∀ m : List Char, percentDecode (encodeURIComponent m) = some m) ∧
    (∀ (adapter : Option (List Char → Bool → List Char)) (m : List Char),
      m ≠ [] → '$' ∉ m →
      extractBody ('$' :: (m ++ ['$'])) = '$' :: (m ++ ['$']) →
      containsB "\\end\x7bverbatim\x7d".toList ('$' :: (m ++ ['$'])) = false →
      fires tryCheckbox ('$' :: (m ++ ['$'])) = false →
      containsB "\\]".toList ('$' :: (m ++ ['$'])) = false →
      containsB "$$".toList ('$' :: (m ++ ['$'])) = false →
      latexToHtml adapter ('$' :: (m ++ ['$'])) = mathInlineHtml adapter m) ∧
    (∀ (adapter : Option (List Char → Bool → List Char)) (m : List Char),
      containsB "\\]".toList m = false → m.getLast? ≠ some '\\' →
      extractBody ("\\[".toList ++ (m ++ "\\]".toList)) =
        "\\[".toList ++ (m ++ "\\]".toList) →
      containsB "\\end\x7bverbatim\x7d".toList
        ("\\[".toList ++ (m ++ "\\]".toList)) = false →
      fires tryCheckbox ("\\[".toList ++ (m ++ "\\]".toList)) = false →
      latexToHtml adapter ("\\[".toList ++ (m ++ "\\]".toList)) =
        mathBlockHtml adapter m) ∧
    (∀ (adapter : Option (List Char → Bool → List Char)) (m : List Char),
      containsB "$$".toList m = false → m.getLast? ≠ some '$' →
      extractBody ("$$".toList ++ (m ++ "$$".toList)) =
        "$$".toList ++ (m ++ "$$".toList) →
      containsB "\\end\x7bverbatim\x7d".toList
        ("$$".toList ++ (m ++ "$$".toList)) = false →
      fires tryCheckbox ("$$".toList ++ (m ++ "$$".toList)) = false →
      containsB "\\]".toList ("$$".toList ++ (m ++ "$$".toList)) = false →
      latexToHtml adapter ("$$".toList ++ (m ++ "$$".toList)) =
        mathBlockHtml adapter m) ∧
    (∀ (d : ElemData) (ch : List HNode) (m : List Char),
      d.classes.contains "math-block".toList = true →
      d.dataLatex = some (encodeURIComponent m) →
      qselList (fun e => e.tag = "textarea".toList) ch = none →
      traverseNode (HNode.helem d ch) =
        "\n\\[\n".toList ++ m ++ "\n\\]\n".toList) ∧
    (∀ (d : ElemData) (ch : List HNode) (m : List Char),
      d.classes.contains "math-block".toList = false →
      d.classes.contains "math-inline".toList = true →
      qselList (fun e => e.tag = "input".toList) ch = none →
      d.dataLatex = some (encodeURIComponent m) →
      traverseNode (HNode.helem d ch) = '$' :: (m ++ ['$'])) :=
  ⟨percentDecode_encode, latexToHtml_inline_math, latexToHtml_display_math,
    latexToHtml_dollars_math, traverse_math_block,
    fun d ch m hnb hcls hq hattr => traverse_math_inline d ch m hnb hcls hq hattr⟩

/-- C2 witness at `m = "E=mc^2"` with the adapter absent. -/
theorem claim2_math_roundtrip_witness :
    percentDecode (encodeURIComponent "E=mc^2".toList) = some "E=mc^2".toList ∧
    latexToHtml none ('$' :: ("E=mc^2".toList ++ ['$'])) =
      mathInlineHtml none "E=mc^2".toList ∧
    latexToHtml none ("\\[".toList ++ ("E=mc^2".toList ++ "\\]".toList)) =
      mathBlockHtml none "E=mc^2".toList ∧
    traverseNode (HNode.helem
      ⟨"span".toList, ["math-inline".toList], noStyle, none, none,
        some (encodeURIComponent "E=mc^2".toList), none, []⟩ []) =
      '$' :: ("E=mc^2".toList ++ ['$']) :=
  ⟨claim2_math_canonical_source_roundtrip.1 _,
    claim2_math_canonical_source_roundtrip.2.1 none "E=mc^2".toList
      (by decide) (by decide) (by decide) (by decide) (by decide) (by decide)
      (by decide),
    claim2_math_canonical_source_roundtrip.2.2.1 none "E=mc^2".toList
      (by decide) (by decide) (by decide) (by decide) (by decide),
    claim2_math_canonical_source_roundtrip.2.2.2.2.2
      ⟨"span".toList, ["math-inline".toList], noStyle, none, none,
        some (encodeURIComponent "E=mc^2".toList), none, []⟩ [] "E=mc^2".toList
      (by decide) (by decide) (by simp [qselList]) rfl⟩

/-- C9: `\section{Demo}` converts forward to exactly one
heading-level-1 element with text `Demo`, and that element compiles
back to exactly `\section{Demo}` after blank-line collapsing and
trimming. -/
theorem claim9_section_demo_roundtrip :
    latexToHtml none "\\section\x7bDemo\x7d".toList = "<h1>Demo</h1>".toList ∧
    htmlToLatex [HNode.helem
      ⟨"h1".toList, [], noStyle, none, none, none, none, []⟩
      [HNode.htext "Demo".toList]] = "\\section\x7bDemo\x7d".toList := by
  constructor
  · decide
  · decide

/-- C4 (code evaluated at the claim's input): the checkbox-list capture
starts after the first `\item[$\square$]` marker, so the first item is
emitted as bare text with a stray `</li>` and no checkbox input — only
the second item gets the `<input type="checkbox" disabled>` marker.
The backward direction behaves as claimed: a list of two checkbox items
emits two `\item[$\square$]` entries. -/
theorem claim4_checkbox_first_item_dropped :
    latexToHtml none ("\\begin\x7bitemize\x7d\\item[$\\square$]Task1" ++
        "\\item[$\\square$]Task2\\end\x7bitemize\x7d").toList =
      ("<ul style=\"list-style-type: none;\">Task1</li><li>" ++
        "<input type=\"checkbox\" disabled> Task2</li></ul>").toList ∧
    containsB "disabled> Task1".toList
      (latexToHtml none ("\\begin\x7bitemize\x7d\\item[$\\square$]Task1" ++
        "\\item[$\\square$]Task2\\end\x7bitemize\x7d").toList) = false ∧
    containsB "disabled> Task2".toList
      (latexToHtml none ("\\begin\x7bitemize\x7d\\item[$\\square$]Task1" ++
        "\\item[$\\square$]Task2\\end\x7bitemize\x7d").toList) = true ∧
    htmlToLatex [HNode.helem
      ⟨"ul".toList, [], noStyle, none, none, none, none, []⟩
      [HNode.helem ⟨"li".toList, [], noStyle, none, none, none, none, []⟩
        [HNode.helem ⟨"input".toList, [], noStyle, none, none, none,
          some "checkbox".toList, []⟩ [],
         HNode.htext " Task1".toList],
       HNode.helem ⟨"li".toList, [], noStyle, none, none, none, none, []⟩
        [HNode.helem ⟨"input".toList, [], noStyle, none, none, none,
          some "checkbox".toList, []⟩ [],
         HNode.htext " Task2".toList]]] =
      ("\\begin\x7bitemize\x7d\n  \\item[$\\square$] Task1\n" ++
        "  \\item[$\\square$] Task2\n\\end\x7bitemize\x7d").toList := by
  refine ⟨by decide, by decide, by decide, by decide⟩

/-- C3 (code evaluated at the failing input): an input with no
placeholder-like substring, in which a verbatim region is nested inside
a display-math region, leaves the literal token
`__PROTECTED_BLOCK_0__` in the output: the single restoration pass
never rescans a restored block's content. -/
theorem claim3_nested_protected_block_leaks :
    containsB "__PROTECTED_BLOCK_".toList
      "\\[a\\begin\x7bverbatim\x7db\\end\x7bverbatim\x7dc\\]".toList = false ∧
    containsB "__PROTECTED_BLOCK_0__".toList
      (latexToHtml none
        "\\[a\\begin\x7bverbatim\x7db\\end\x7bverbatim\x7dc\\]".toList) = true := by
  refine ⟨by decide, by decide⟩

/-- The walker's default branch: a class-free `span` (or any
unrecognized tag) emits the style prefix, the children, and the style
suffix. -/
theorem traverse_span_default (d : ElemData) (ch : List HNode)
    (hcls : d.classes = []) (htag : d.tag = "span".toList) :
    traverseNode (HNode.helem d ch) =
      (styleWrap d.style).1 ++ traverseList ch ++ (styleWrap d.style).2 := by
  unfold traverseNode
  rw [hcls, htag]
  unfold tagEmit
  rw [htag]
  simp only [List.contains, List.elem_nil, Bool.false_eq_true, if_false,
    if_neg (by decide : ¬("span".toList = "pre".toList)),
    if_neg (by decide : ¬("span".toList = "code".toList)),
    if_neg (by decide : ¬("span".toList = "h1".toList)),
    if_neg (by decide : ¬("span".toList = "h2".toList)),
    if_neg (by decide : ¬("span".toList = "h3".toList)),
    if_neg (by decide : ¬("span".toList = "h4".toList)),
    if_neg (by decide : ¬("span".toList = "b".toList ∨ "span".toList = "strong".toList)),
    if_neg (by decide : ¬("span".toList = "i".toList ∨ "span".toList = "em".toList)),
    if_neg (by decide : ¬("span".toList = "u".toList)),
    if_neg (by decide : ¬("span".toList = "a".toList)),
    if_neg (by decide : ¬("span".toList = "img".toList)),
    if_neg (by decide : ¬("span".toList = "ul".toList)),
    if_neg (by decide : ¬("span".toList = "ol".toList)),
    if_neg (by decide : ¬("span".toList = "li".toList)),
    if_neg (by decide : ¬("span".toList = "br".toList)),
    if_neg (by decide : ¬("span".toList = "div".toList ∨ "span".toList = "p".toList))]

theorem claim5_sized_container_counterexample :
    traverseNode (HNode.helem
      ⟨"div".toList, [], ⟨[], [], [], "14px".toList, []⟩, none, none, none, none, []⟩
      [HNode.htext "x".toList]) = "\n\nx\n\n".toList ∧
    containsB "\\Large".toList (traverseNode (HNode.helem
      ⟨"div".toList, [], ⟨[], [], [], "14px".toList, []⟩, none, none, none, none, []⟩
      [HNode.htext "x".toList])) = false := by
  refine ⟨by decide, by decide⟩

theorem claim5_font_size_bucketing :
    (sizeCmdOf (some 6) = "\\tiny ".toList ∧
     sizeCmdOf (some 7) = "\\scriptsize ".toList ∧
     sizeCmdOf (some 8) = "\\footnotesize ".toList ∧
     sizeCmdOf (some 9) = "\\small ".toList ∧
     sizeCmdOf (some 10) = "\\normalsize ".toList ∧
     sizeCmdOf (some 12) = "\\large ".toList ∧
     sizeCmdOf (some 14) = "\\Large ".toList ∧
     sizeCmdOf (some 17) = "\\LARGE ".toList ∧
     sizeCmdOf (some 20) = "\\huge ".toList ∧
     sizeCmdOf (some 24) = "\\Huge ".toList) ∧
    (∀ v : Int,
      (10 ≤ v → v < 12 → sizeCmdOf (some v) = sizeCmdOf (some 10)) ∧
      (12 ≤ v → v < 14 → sizeCmdOf (some v) = sizeCmdOf (some 12)) ∧
      (14 ≤ v → v < 17 → sizeCmdOf (some v) = sizeCmdOf (some 14)) ∧
      (17 ≤ v → v < 20 → sizeCmdOf (some v) = sizeCmdOf (some 17)) ∧
      (20 ≤ v → v < 24 → sizeCmdOf (some v) = sizeCmdOf (some 20))) ∧
    (∀ st : Styles, st.fontSize ≠ [] →
      (styleWrap st).1 =
        (styleWrap ⟨st.color, st.backgroundColor, st.textAlign, [],
          st.fontFamily⟩).1 ++ sizeCmdOf (parseIntJS st.fontSize) ∧
      (styleWrap st).2 =
        (styleWrap ⟨st.color, st.backgroundColor, st.textAlign, [],
          st.fontFamily⟩).2) ∧
    (∀ (d : ElemData) (ch : List HNode), d.classes = [] → d.tag = "span".toList →
      traverseNode (HNode.helem d ch) =
        (styleWrap d.style).1 ++ traverseList ch ++ (styleWrap d.style).2) := by
  refine ⟨by decide, ?_, ?_, ?_⟩
  · intro v
    refine ⟨fun h1 h2 => ?_, fun h1 h2 => ?_, fun h1 h2 => ?_, fun h1 h2 => ?_,
      fun h1 h2 => ?_⟩
    · have n6 : ¬(v ≤ 6) := by omega
      have n7 : ¬(v ≤ 7) := by omega
      have n8 : ¬(v ≤ 8) := by omega
      have n9 : ¬(v ≤ 9) := by omega
      have g24 : ¬(v ≥ 24) := by omega
      have g20 : ¬(v ≥ 20) := by omega
      have g17 : ¬(v ≥ 17) := by omega
      have g14 : ¬(v ≥ 14) := by omega
      have g12 : ¬(v ≥ 12) := by omega
      rw [show sizeCmdOf (some 10) = "\\normalsize ".toList from by decide]
      simp only [sizeCmdOf]
      rw [if_neg n6, if_neg n7, if_neg n8, if_neg n9, if_neg g24, if_neg g20,
        if_neg g17, if_neg g14, if_neg g12]
    · have n6 : ¬(v ≤ 6) := by omega
      have n7 : ¬(v ≤ 7) := by omega
      have n8 : ¬(v ≤ 8) := by omega
      have n9 : ¬(v ≤ 9) := by omega
      have g24 : ¬(v ≥ 24) := by omega
      have g20 : ¬(v ≥ 20) := by omega
      have g17 : ¬(v ≥ 17) := by omega
      have g14 : ¬(v ≥ 14) := by omega
      have g12 : v ≥ 12 := by omega
      rw [show sizeCmdOf (some 12) = "\\large ".toList from by decide]
      simp only [sizeCmdOf]
      rw [if_neg n6, if_neg n7, if_neg n8, if_neg n9, if_neg g24, if_neg g20,
        if_neg g17, if_neg g14, if_pos g12]
    · have n6 : ¬(v ≤ 6) := by omega
      have n7 : ¬(v ≤ 7) := by omega
      have n8 : ¬(v ≤ 8) := by omega
      have n9 : ¬(v ≤ 9) := by omega
      have g24 : ¬(v ≥ 24) := by omega
      have g20 : ¬(v ≥ 20) := by omega
      have g17 : ¬(v ≥ 17) := by omega
      have g14 : v ≥ 14 := by omega
      rw [show sizeCmdOf (some 14) = "\\Large ".toList from by decide]
      simp only [sizeCmdOf]
      rw [if_neg n6, if_neg n7, if_neg n8, if_neg n9, if_neg g24, if_neg g20,
        if_neg g17, if_pos g14]
    · have n6 : ¬(v ≤ 6) := by omega
      have n7 : ¬(v ≤ 7) := by omega
      have n8 : ¬(v ≤ 8) := by omega
      have n9 : ¬(v ≤ 9) := by omega
      have g24 : ¬(v ≥ 24) := by omega
      have g20 : ¬(v ≥ 20) := by omega
      have g17 : v ≥ 17 := by omega
      rw [show sizeCmdOf (some 17) = "\\LARGE ".toList from by decide]
      simp only [sizeCmdOf]
      rw [if_neg n6, if_neg n7, if_neg n8, if_neg n9, if_neg g24, if_neg g20,
        if_pos g17]
    · have n6 : ¬(v ≤ 6) := by omega
      have n7 : ¬(v ≤ 7) := by omega
      have n8 : ¬(v ≤ 8) := by omega
      have n9 : ¬(v ≤ 9) := by omega
      have g24 : ¬(v ≥ 24) := by omega
      have g20 : v ≥ 20 := by omega
      rw [show sizeCmdOf (some 20) = "\\huge ".toList from by decide]
      simp only [sizeCmdOf]
      rw [if_neg n6, if_neg n7, if_neg n8, if_neg n9, if_neg g24, if_pos g20]
  · intro st h
    constructor
    · have h1 : (styleWrap st).1 =
          (alignOpen st ++ (colorOpen st ++ bgOpen st) ++ sfOpen st) ++
            sizeCmdOf (parseIntJS st.fontSize) := by
        show (_ ++ sizeOpen st) = _
        rw [show sizeOpen st = sizeCmdOf (parseIntJS st.fontSize) from by
          unfold sizeOpen; rw [if_pos h]]
      have h2 : (styleWrap ⟨st.color, st.backgroundColor, st.textAlign, [],
          st.fontFamily⟩).1 =
          alignOpen st ++ (colorOpen st ++ bgOpen st) ++ sfOpen st := by
        show (alignOpen st ++ (colorOpen st ++ bgOpen st) ++ sfOpen st) ++
          sizeOpen ⟨st.color, st.backgroundColor, st.textAlign, [],
            st.fontFamily⟩ = _
        rw [show sizeOpen ⟨st.color, st.backgroundColor, st.textAlign, [],
          st.fontFamily⟩ = [] from by unfold sizeOpen; simp]
        rw [List.append_nil]
      rw [h1, h2]
    · rfl
  · exact traverse_span_default

theorem claim6_container_background_counterexample :
    traverseNode (HNode.helem
      ⟨"div".toList, [], ⟨[], "red".toList, [], [], []⟩, none, none, none, none, []⟩
      [HNode.htext "x".toList]) = "\n\nx\n\n".toList ∧
    containsB "\\colorbox".toList (traverseNode (HNode.helem
      ⟨"div".toList, [], ⟨[], "red".toList, [], [], []⟩, none, none, none, none, []⟩
      [HNode.htext "x".toList])) = false := by
  refine ⟨by decide, by decide⟩

theorem claim6_transparent_background :
    (∀ st : Styles, st.backgroundColor = "rgba(0, 0, 0, 0)".toList →
      styleWrap st =
        styleWrap ⟨st.color, [], st.textAlign, st.fontSize, st.fontFamily⟩) ∧
    (∀ st : Styles, st.backgroundColor ≠ [] →
      st.backgroundColor ≠ "inherit".toList →
      containsB "rgba(0, 0, 0, 0)".toList st.backgroundColor = false →
      containsB "\\colorbox\x7b".toList (styleWrap st).1 = true) ∧
    (∀ (d : ElemData) (ch : List HNode), d.classes = [] →
      d.tag = "span".toList →
      d.style.backgroundColor = "rgba(0, 0, 0, 0)".toList →
      traverseNode (HNode.helem d ch) =
        (styleWrap ⟨d.style.color, [], d.style.textAlign, d.style.fontSize,
          d.style.fontFamily⟩).1 ++ traverseList ch ++
        (styleWrap ⟨d.style.color, [], d.style.textAlign, d.style.fontSize,
          d.style.fontFamily⟩).2) := by
  have part1 : ∀ st : Styles, st.backgroundColor = "rgba(0, 0, 0, 0)".toList →
      styleWrap st =
        styleWrap ⟨st.color, [], st.textAlign, st.fontSize, st.fontFamily⟩ := by
    intro st hbg
    have hb1 : bgOpen st = [] := by
      unfold bgOpen
      rw [if_neg]
      unfold bgOn
      rw [hbg]
      decide
    have hb2 : bgClose st = [] := by
      unfold bgClose
      rw [if_neg]
      unfold bgOn
      rw [hbg]
      decide
    have hb3 : bgOpen ⟨st.color, [], st.textAlign, st.fontSize, st.fontFamily⟩ = [] := by
      unfold bgOpen
      rw [if_neg]
      unfold bgOn
      simp
    have hb4 : bgClose ⟨st.color, [], st.textAlign, st.fontSize, st.fontFamily⟩ = [] := by
      unfold bgClose
      rw [if_neg]
      unfold bgOn
      simp
    unfold styleWrap
    rw [hb1, hb2, hb3, hb4]
    rfl
  refine ⟨part1, ?_, ?_⟩
  · intro st h1 h2 h3
    have hb : bgOpen st = "\\colorbox\x7b".toList ++
        (rgbToHex st.backgroundColor ++ "\x7d\x7b".toList) := by
      unfold bgOpen
      rw [if_pos ⟨h1, h2, by simp only [h3]; decide⟩, List.append_assoc]
    show containsB "\\colorbox\x7b".toList
      ((alignOpen st ++ (colorOpen st ++ bgOpen st) ++ sfOpen st) ++ sizeOpen st) = true
    apply containsB_append_left
    apply containsB_append_left
    apply containsB_append_right
    apply containsB_append_right
    rw [hb]
    exact containsB_of_startsW (startsW_self _ _)
  · intro d ch hcls htag hbg
    rw [traverse_span_default d ch hcls htag, part1 d.style hbg]

theorem claim5_font_size_bucketing_witness :
    sizeCmdOf (some 11) = sizeCmdOf (some 10) ∧
    (styleWrap ⟨[], [], [], "14.4pt".toList, []⟩).1 =
      (styleWrap ⟨[], [], [], [], []⟩).1 ++
        sizeCmdOf (parseIntJS "14.4pt".toList) ∧
    traverseNode (HNode.helem
      ⟨"span".toList, [], ⟨[], [], [], "14.4pt".toList, []⟩,
        none, none, none, none, []⟩ [HNode.htext "x".toList]) =
      (styleWrap ⟨[], [], [], "14.4pt".toList, []⟩).1 ++
        traverseList [HNode.htext "x".toList] ++
        (styleWrap ⟨[], [], [], "14.4pt".toList, []⟩).2 :=
  ⟨(claim5_font_size_bucketing.2.1 11).1 (by decide) (by decide),
   (claim5_font_size_bucketing.2.2.1 ⟨[], [], [], "14.4pt".toList, []⟩
     (by decide)).1,
   claim5_font_size_bucketing.2.2.2
     ⟨"span".toList, [], ⟨[], [], [], "14.4pt".toList, []⟩,
       none, none, none, none, []⟩ [HNode.htext "x".toList] rfl rfl⟩

theorem claim6_transparent_background_witness :
    styleWrap ⟨[], "rgba(0, 0, 0, 0)".toList, [], [], []⟩ =
      styleWrap ⟨[], [], [], [], []⟩ ∧
    containsB "\\colorbox\x7b".toList
      (styleWrap ⟨[], "rgb(255, 0, 0)".toList, [], [], []⟩).1 = true ∧
    traverseNode (HNode.helem
      ⟨"span".toList, [], ⟨[], "rgba(0, 0, 0, 0)".toList, [], [], []⟩,
        none, none, none, none, []⟩ [HNode.htext "x".toList]) =
      (styleWrap ⟨[], [], [], [], []⟩).1 ++
        traverseList [HNode.htext "x".toList] ++
        (styleWrap ⟨[], [], [], [], []⟩).2 :=
  ⟨claim6_transparent_background.1 ⟨[], "rgba(0, 0, 0, 0)".toList, [], [], []⟩ rfl,
   claim6_transparent_background.2.1 ⟨[], "rgb(255, 0, 0)".toList, [], [], []⟩
     (by decide) (by decide) (by decide),
   claim6_transparent_background.2.2
     ⟨"span".toList, [], ⟨[], "rgba(0, 0, 0, 0)".toList, [], [], []⟩,
       none, none, none, none, []⟩ [HNode.htext "x".toList] rfl rfl rfl⟩

/-- C7: malformed markup degrades to literal pass-through.  The
embedding is a family of total functions (no operation in the source
path can throw: the regex passes cannot fail and the only throwing
call, the math renderer, is wrapped in try/catch), so `latexToHtml`
returns normally on every input.  An environment whose closing marker
is absent is left byte-for-byte intact by the corresponding pass
(first two parts, for the formatting and the protecting scanners), and
a command outside the recognized grammar is left unconverted by the
whole pipeline (last parts, evaluated end-to-end). -/
theorem claim7_malformed_passthrough :
    (∀ (op cl : List Char) (build : List Char → List Char) (s : List Char),
      containsB cl s = false → replStage (tryEnvFmt op cl build) s = s) ∧
    (∀ (op cl : List Char) (rend : List Char → List Char)
        (bs : List (List Char)) (prev : Bool) (s : List Char),
      containsB cl s = false →
      protGo (fun _ => tryEnvProt op cl rend) bs prev 0 s = (s, bs)) ∧
    latexToHtml none "\\begin\x7bitemize\x7d\\item a".toList =
      "\\begin\x7bitemize\x7d\\item a".toList ∧
    latexToHtml none "\\foo\x7bbar\x7d baz".toList =
      "\\foo\x7bbar\x7d baz".toList :=
  ⟨fun op cl b _ h => replStage_id_of_no_close op cl b h,
   fun op cl rend _ _ _ h => protGo_id_of_no_close op cl rend h,
   by decide, by decide⟩

/-- C7 witness: an unterminated `itemize` passes through both scanner
families unchanged. -/
theorem claim7_malformed_passthrough_witness :
    replStage (tryEnvFmt "\\begin\x7bitemize\x7d".toList
        "\\end\x7bitemize\x7d".toList
        (listItemsHtml "<ul>".toList "</ul>".toList))
      "\\begin\x7bitemize\x7d\\item a".toList =
      "\\begin\x7bitemize\x7d\\item a".toList ∧
    protGo (fun _ => tryEnvProt "\\begin\x7bverbatim\x7d".toList
        "\\end\x7bverbatim\x7d".toList preHtml) [] false 0
      "\\begin\x7bverbatim\x7d x".toList =
      ("\\begin\x7bverbatim\x7d x".toList, []) :=
  ⟨claim7_malformed_passthrough.1 _ _ _ _ (by decide),
   claim7_malformed_passthrough.2.1 _ _ _ _ _ _ (by decide)⟩

/-! ## Final normalization (`\n{3,}` collapse and trim) -/

theorem collapseNlGo_cons_nl (run : Nat) (t : List Char) :
    collapseNlGo run ('\n' :: t) = collapseNlGo (run + 1) t := by
  simp [collapseNlGo]

theorem collapseNlGo_cons_other {c : Char} (hc : c ≠ '\n') (run : Nat)
    (t : List Char) :
    collapseNlGo run (c :: t) =
      (if run ≥ 3 then ['\n', '\n'] else List.replicate run '\n') ++
        c :: collapseNlGo 0 t := by
  simp [collapseNlGo, hc]

/-- Feeding a newline run into the scanner only bumps the counter. -/
theorem collapseNlGo_feed (b : List Char) : ∀ (k run : Nat),
    collapseNlGo run (List.replicate k '\n' ++ b) = collapseNlGo (run + k) b := by
  intro k
  induction k with
  | zero => intro run; rfl
  | succ n ih =>
    intro run
    rw [List.replicate_succ, List.cons_append, collapseNlGo_cons_nl, ih]
    congr 1
    omega

/-- The collapse scanner distributes over an append whose left part does
not end in a newline. -/
theorem collapseNlGo_append (X : List Char) : ∀ (a : List Char) (run : Nat),
    a.getLast? ≠ some '\n' → (a = [] → run = 0) →
    collapseNlGo run (a ++ X) = collapseNlGo run a ++ collapseNlGo 0 X := by
  intro a
  induction a with
  | nil =>
    intro run _ h0
    rw [h0 rfl]
    rfl
  | cons c rest ih =>
    intro run hlast _
    by_cases hc : c = '\n'
    · subst hc
      have hne : rest ≠ [] := by
        intro h
        subst h
        simp at hlast
      have hl2 : rest.getLast? ≠ some '\n' := by
        cases rest with
        | nil => exact absurd rfl hne
        | cons d t =>
          rw [List.getLast?_cons_cons] at hlast
          exact hlast
      rw [List.cons_append, collapseNlGo_cons_nl, collapseNlGo_cons_nl]
      exact ih (run + 1) hl2 (fun h => absurd h hne)
    · have hl2 : rest.getLast? ≠ some '\n' := by
        cases rest with
        | nil => simp
        | cons d t =>
          rw [List.getLast?_cons_cons] at hlast
          exact hlast
      rw [List.cons_append, collapseNlGo_cons_other hc, collapseNlGo_cons_other hc,
        ih 0 hl2 (fun _ => rfl)]
      simp

/-- A pending run of three or more newlines is emitted as exactly two. -/
theorem collapseNlGo_ge3 {b : List Char} (hb : b.head? ≠ some '\n') {run : Nat}
    (h3 : run ≥ 3) : collapseNlGo run b = '\n' :: '\n' :: collapseNlGo 0 b := by
  cases b with
  | nil =>
    show (if run ≥ 3 then _ else _) = _
    rw [if_pos h3]
    rfl
  | cons c t =>
    have hc : c ≠ '\n' := fun h => hb (by rw [h]; rfl)
    rw [collapseNlGo_cons_other hc, collapseNlGo_cons_other hc, if_pos h3]
    rfl

theorem startsW_nnn_cons {c : Char} (hc : c ≠ '\n') (T : List Char) :
    startsW ['\n', '\n', '\n'] (c :: T) = false := by
  unfold startsW
  have : stripPre ['\n', '\n', '\n'] (c :: T) = none := by
    show (if '\n' = c then _ else none) = none
    rw [if_neg (fun h => hc h.symm)]
  rw [this]
  rfl

theorem containsB_nnn_cons {c : Char} (hc : c ≠ '\n') (T : List Char) :
    containsB ['\n', '\n', '\n'] (c :: T) = containsB ['\n', '\n', '\n'] T := by
  show (startsW _ _ || _) = _
  rw [startsW_nnn_cons hc, Bool.false_or]

theorem containsB_nnn_pad (run : Nat) {c : Char} (hc : c ≠ '\n') (T : List Char) :
    containsB ['\n', '\n', '\n']
      ((if run ≥ 3 then ['\n', '\n'] else List.replicate run '\n') ++ c :: T) =
      containsB ['\n', '\n', '\n'] T := by
  have l1 : ∀ T' : List Char,
      containsB ['\n', '\n', '\n'] ('\n' :: c :: T') =
        containsB ['\n', '\n', '\n'] (c :: T') := by
    intro T'
    show (startsW _ _ || _) = _
    have : startsW ['\n', '\n', '\n'] ('\n' :: c :: T') = false := by
      unfold startsW
      have : stripPre ['\n', '\n', '\n'] ('\n' :: c :: T') = none := by
        show (if '\n' = c then _ else none) = none
        rw [if_neg (fun h => hc h.symm)]
      rw [this]
      rfl
    rw [this, Bool.false_or]
  have l2 : ∀ T' : List Char,
      containsB ['\n', '\n', '\n'] ('\n' :: '\n' :: c :: T') =
        containsB ['\n', '\n', '\n'] ('\n' :: c :: T') := by
    intro T'
    show (startsW _ _ || _) = _
    have : startsW ['\n', '\n', '\n'] ('\n' :: '\n' :: c :: T') = false := by
      unfold startsW
      have : stripPre ['\n', '\n', '\n'] ('\n' :: '\n' :: c :: T') = none := by
        show (if '\n' = c then _ else none) = none
        rw [if_neg (fun h => hc h.symm)]
      rw [this]
      rfl
    rw [this, Bool.false_or]
  by_cases h3 : run ≥ 3
  · rw [if_pos h3]
    show containsB _ ('\n' :: '\n' :: c :: T) = _
    rw [l2, l1, containsB_nnn_cons hc]
  · rw [if_neg h3]
    have hr : run < 3 := by omega
    interval_cases run
    · show containsB _ (c :: T) = _
      rw [containsB_nnn_cons hc]
    · show containsB _ ('\n' :: c :: T) = _
      rw [l1, containsB_nnn_cons hc]
    · show containsB _ ('\n' :: '\n' :: c :: T) = _
      rw [l2, l1, containsB_nnn_cons hc]

/-- The collapsed output never contains three consecutive newlines. -/
theorem collapseNlGo_no_triple : ∀ (s : List Char) (run : Nat),
    containsB ['\n', '\n', '\n'] (collapseNlGo run s) = false := by
  intro s
  induction s with
  | nil =>
    intro run
    show containsB _ (if run ≥ 3 then _ else _) = false
    by_cases h3 : run ≥ 3
    · rw [if_pos h3]
      decide
    · rw [if_neg h3]
      have hr : run < 3 := by omega
      interval_cases run <;> decide
  | cons c rest ih =>
    intro run
    by_cases hc : c = '\n'
    · subst hc
      rw [collapseNlGo_cons_nl]
      exact ih (run + 1)
    · rw [collapseNlGo_cons_other hc, containsB_nnn_pad run hc _]
      exact ih 0

/-- `jsTrimEnd s` is an initial segment of `s`. -/
theorem jsTrimEnd_initial : ∀ s : List Char, ∃ u, s = jsTrimEnd s ++ u := by
  intro s
  induction s with
  | nil => exact ⟨[], rfl⟩
  | cons c rest ih =>
    obtain ⟨u, hu⟩ := ih
    cases h : jsTrimEnd rest with
    | nil =>
      by_cases hw : jsWs c
      · exact ⟨c :: rest, by simp [jsTrimEnd, h, hw]⟩
      · exact ⟨rest, by simp [jsTrimEnd, h, hw]⟩
    | cons d t =>
      refine ⟨u, ?_⟩
      have he : jsTrimEnd (c :: rest) = c :: d :: t := by
        simp [jsTrimEnd, h]
      rw [he, hu, h]
      rfl

theorem getLast?_jsTrimEnd : ∀ (s : List Char) (c : Char),
    (jsTrimEnd s).getLast? = some c → jsWs c = false := by
  intro s
  induction s with
  | nil => intro c h; simp [jsTrimEnd] at h
  | cons a rest ih =>
    intro c h
    cases hr : jsTrimEnd rest with
    | nil =>
      have he : jsTrimEnd (a :: rest) = if jsWs a then [] else [a] := by
        simp [jsTrimEnd, hr]
      rw [he] at h
      by_cases hw : jsWs a
      · rw [if_pos hw] at h
        simp at h
      · rw [if_neg hw] at h
        simp at h
        rw [← h]
        simp at hw
        exact hw
    | cons d t =>
      have he : jsTrimEnd (a :: rest) = a :: d :: t := by
        simp [jsTrimEnd, hr]
      rw [he, List.getLast?_cons_cons] at h
      exact ih c (by rw [hr]; exact h)

theorem head?_dropWhile_ws : ∀ (s : List Char) (c : Char),
    (s.dropWhile jsWs).head? = some c → jsWs c = false := by
  intro s
  induction s with
  | nil => intro c h; simp at h
  | cons a rest ih =>
    intro c h
    by_cases hw : jsWs a
    · rw [List.dropWhile_cons_of_pos hw] at h
      exact ih c h
    · rw [List.dropWhile_cons_of_neg hw] at h
      simp at h
      rw [← h]
      simp at hw
      exact hw

theorem head?_jsTrim (s : List Char) (c : Char)
    (h : (jsTrim s).head? = some c) : jsWs c = false := by
  apply head?_dropWhile_ws s c
  unfold jsTrim at h
  obtain ⟨u, hu⟩ := jsTrimEnd_initial (jsTrimStart s)
  cases he : jsTrimEnd (jsTrimStart s) with
  | nil =>
    rw [he] at h
    simp at h
  | cons d t =>
    rw [he] at h hu
    simp at h
    show (jsTrimStart s).head? = some c
    rw [hu, ← h]
    rfl

theorem getLast?_jsTrim (s : List Char) (c : Char)
    (h : (jsTrim s).getLast? = some c) : jsWs c = false :=
  getLast?_jsTrimEnd (jsTrimStart s) c h

/-- Trimming introduces no new substring. -/
theorem containsB_jsTrim {pat s : List Char} (h : containsB pat s = false) :
    containsB pat (jsTrim s) = false := by
  cases hb : containsB pat (jsTrim s) with
  | false => rfl
  | true =>
    exfalso
    obtain ⟨u, hu⟩ := jsTrimEnd_initial (jsTrimStart s)
    have h1 : containsB pat (jsTrimStart s) = true := by
      rw [hu]
      exact containsB_append_left hb u
    have h2 : containsB pat s = true := by
      have hs : s = s.takeWhile jsWs ++ s.dropWhile jsWs :=
        (List.takeWhile_append_dropWhile jsWs s).symm
      rw [hs]
      exact containsB_append_right h1 _
    rw [h] at h2
    exact Bool.false_ne_true h2

/-- C8: the backward compiler's final normalization.  First part: the
blank-line collapse — around any junction whose left side does not end
and whose right side does not start with a newline, a run of three or
more newlines (two or more stacked blank lines, covering in particular
three or more) is replaced by exactly two newlines, i.e. a single
blank line, and the rest of the text is collapsed independently.
Second part, for every input tree: the returned string never contains
three consecutive newlines (so in particular never three consecutive
blank lines), and its first and last characters are never whitespace
(leading and trailing whitespace is trimmed). -/
theorem claim8_final_normalization :
    (∀ (a b : List Char) (k : Nat), 3 ≤ k → a.getLast? ≠ some '\n' →
      b.head? ≠ some '\n' →
      collapseNl (a ++ (List.replicate k '\n' ++ b)) =
        collapseNl a ++ ('\n' :: '\n' :: collapseNl b)) ∧
    (∀ nodes : List HNode,
      containsB ['\n', '\n', '\n'] (htmlToLatex nodes) = false ∧
      (∀ c, (htmlToLatex nodes).head? = some c → jsWs c = false) ∧
      (∀ c, (htmlToLatex nodes).getLast? = some c → jsWs c = false)) := by
  constructor
  · intro a b k hk hla hhb
    unfold collapseNl
    rw [collapseNlGo_append (List.replicate k '\n' ++ b) a 0 hla (fun _ => rfl),
      collapseNlGo_feed b k 0, collapseNlGo_ge3 hhb (by omega)]
  · intro nodes
    refine ⟨?_, fun c h => head?_jsTrim _ c h, fun c h => getLast?_jsTrim _ c h⟩
    exact containsB_jsTrim (collapseNlGo_no_triple (traverseList nodes) 0)

/-- C8 witness: a five-newline run between `x` and `y` collapses to a
single blank line, and a concrete walked tree yields a fully trimmed
result without triple newlines. -/
theorem claim8_final_normalization_witness :
    collapseNl ("x".toList ++ (List.replicate 5 '\n' ++ "y".toList)) =
      collapseNl "x".toList ++ ('\n' :: '\n' :: collapseNl "y".toList) ∧
    containsB ['\n', '\n', '\n']
      (htmlToLatex [HNode.htext "  a\n\n\n\nb  ".toList]) = false ∧
    jsWs 'a' = false ∧ jsWs 'b' = false :=
  ⟨claim8_final_normalization.1 "x".toList "y".toList 5 (by decide) (by decide)
     (by decide),
   (claim8_final_normalization.2 [HNode.htext "  a\n\n\n\nb  ".toList]).1,
   (claim8_final_normalization.2 [HNode.htext "  a\n\n\n\nb  ".toList]).2.1 'a'
     (by decide),
   (claim8_final_normalization.2 [HNode.htext "  a\n\n\n\nb  ".toList]).2.2 'b'
     (by decide)⟩

/-! ## The color normalizer `rgbToHex` -/

theorem digit_not_ws {c : Char} (h : isDigitB c = true) : jsWs c = false := by
  have h' : 48 ≤ c.toNat ∧ c.toNat ≤ 57 := by simpa [isDigitB] using h
  simp only [jsWs, decide_eq_false_iff_not, List.mem_cons, List.not_mem_nil]
  intro hx
  rcases hx with (h2|h2|h2|h2|h2|h2|h2|h2|h2|h2|h2|h2|h2|h2|h2) | h2 <;>
    first
    | exact h2.elim
    | omega

theorem ws_not_digit {c : Char} (h : jsWs c = true) : isDigitB c = false := by
  have h' : c.toNat ∈ ([0x09, 0x0A, 0x0B, 0x0C, 0x0D, 0x20, 0xA0, 0x1680,
      0x2028, 0x2029, 0x202F, 0x205F, 0x3000, 0xFEFF] : List Nat) ∨
      (0x2000 ≤ c.toNat ∧ c.toNat ≤ 0x200A) := by simpa [jsWs] using h
  simp only [List.mem_cons, List.not_mem_nil] at h'
  simp only [isDigitB, decide_eq_false_iff_not]
  intro hx
  rcases h' with (h2|h2|h2|h2|h2|h2|h2|h2|h2|h2|h2|h2|h2|h2|h2) | h2 <;>
    first
    | exact h2.elim
    | omega

theorem takeWhile_digits_exact {d Y : List Char}
    (hall : ∀ c ∈ d, isDigitB c = true)
    (hY : ∀ c, Y.head? = some c → isDigitB c = false) :
    (d ++ Y).takeWhile isDigitB = d := by
  induction d with
  | nil =>
    cases Y with
    | nil => rfl
    | cons y t => simp [List.takeWhile_cons, hY y rfl]
  | cons a t ih =>
    simp [List.takeWhile_cons, hall a (by simp),
      ih (fun c hc => hall c (by simp [hc]))]

theorem parseDigitsRun_exact {d Y : List Char} (hne : d ≠ [])
    (hall : ∀ c ∈ d, isDigitB c = true)
    (hY : ∀ c, Y.head? = some c → isDigitB c = false) :
    parseDigitsRun (d ++ Y) = some (natOfDigits d, Y) := by
  simp only [parseDigitsRun, takeWhile_digits_exact hall hY]
  rw [if_neg hne, List.drop_left]

theorem dropWhile_ws_exact {w X : List Char} (hw : ∀ c ∈ w, jsWs c = true)
    (hX : ∀ c, X.head? = some c → jsWs c = false) :
    (w ++ X).dropWhile jsWs = X := by
  induction w with
  | nil =>
    cases X with
    | nil => rfl
    | cons x t => simp [List.dropWhile_cons, hX x rfl]
  | cons a t ih =>
    simp [List.dropWhile_cons, hw a (by simp),
      ih (fun c hc => hw c (by simp [hc]))]

theorem head_digits {d X : List Char} (hne : d ≠ [])
    (hall : ∀ c ∈ d, isDigitB c = true) :
    ∀ c, (d ++ X).head? = some c → jsWs c = false := by
  intro c h
  cases d with
  | nil => exact absurd rfl hne
  | cons a t =>
    simp at h
    rw [← h]
    exact digit_not_ws (hall a (by simp))

theorem head_comma (X : List Char) :
    ∀ c : Char, (',' :: X).head? = some c → jsWs c = false := by
  intro c h
  simp at h
  rw [← h]
  decide

theorem head_not_digit_of_wsComma {w X : List Char}
    (hw : ∀ c ∈ w, jsWs c = true) :
    ∀ c, (w ++ ',' :: X).head? = some c → isDigitB c = false := by
  intro c h
  cases w with
  | nil =>
    simp at h
    rw [← h]
    decide
  | cons a t =>
    simp at h
    rw [← h]
    exact ws_not_digit (hw a (by simp))

theorem expectComma_exact {w X : List Char} (hw : ∀ c ∈ w, jsWs c = true) :
    expectComma (w ++ ',' :: X) = some X := by
  unfold expectComma
  rw [dropWhile_ws_exact hw (head_comma X)]
  rfl

/-- The argument scanner succeeds on any well-formed `\s*` / digit-run
component list and captures the three decimal components. -/
theorem matchRgbArgs_exact
    (w1 d1 w2 w3 d2 w4 w5 d3 rest : List Char)
    (hw1 : ∀ c ∈ w1, jsWs c = true) (hw2 : ∀ c ∈ w2, jsWs c = true)
    (hw3 : ∀ c ∈ w3, jsWs c = true) (hw4 : ∀ c ∈ w4, jsWs c = true)
    (hw5 : ∀ c ∈ w5, jsWs c = true)
    (hd1 : d1 ≠ []) (ha1 : ∀ c ∈ d1, isDigitB c = true)
    (hd2 : d2 ≠ []) (ha2 : ∀ c ∈ d2, isDigitB c = true)
    (hd3 : d3 ≠ []) (ha3 : ∀ c ∈ d3, isDigitB c = true)
    (hrest : ∀ c, rest.head? = some c → isDigitB c = false) :
    matchRgbArgs
      (w1 ++ (d1 ++ (w2 ++ ',' :: (w3 ++ (d2 ++ (w4 ++ ',' ::
        (w5 ++ (d3 ++ rest)))))))) =
      some (natOfDigits d1, natOfDigits d2, natOfDigits d3) := by
  unfold matchRgbArgs
  rw [dropWhile_ws_exact hw1 (head_digits hd1 ha1),
    parseDigitsRun_exact hd1 ha1 (head_not_digit_of_wsComma hw2)]
  simp only [Option.some_bind]
  rw [expectComma_exact hw2]
  simp only [Option.some_bind]
  rw [dropWhile_ws_exact hw3 (head_digits hd2 ha2),
    parseDigitsRun_exact hd2 ha2 (head_not_digit_of_wsComma hw4)]
  simp only [Option.some_bind]
  rw [expectComma_exact hw4]
  simp only [Option.some_bind]
  rw [dropWhile_ws_exact hw5 (head_digits hd3 ha3),
    parseDigitsRun_exact hd3 ha3 hrest]
  rfl

theorem matchRgb_rgb (tail : List Char) :
    matchRgb ('r' :: 'g' :: 'b' :: '(' :: tail) = matchRgbArgs tail := rfl

theorem matchRgb_rgba (tail : List Char) :
    matchRgb ('r' :: 'g' :: 'b' :: 'a' :: '(' :: tail) = matchRgbArgs tail := rfl

theorem dropWhile_noop_of_head {X : List Char}
    (hX : ∀ c, X.head? = some c → jsWs c = false) : X.dropWhile jsWs = X := by
  cases X with
  | nil => rfl
  | cons x t => simp [List.dropWhile_cons, hX x rfl]

theorem jsTrimEnd_noop : ∀ s : List Char,
    (∀ c, s.getLast? = some c → jsWs c = false) → jsTrimEnd s = s := by
  intro s
  induction s with
  | nil => intro _; rfl
  | cons a rest ih =>
    intro hl
    cases hr : jsTrimEnd rest with
    | nil =>
      have he : jsTrimEnd (a :: rest) = if jsWs a then [] else [a] := by
        simp [jsTrimEnd, hr]
      cases rest with
      | nil =>
        rw [he, if_neg (by rw [hl a rfl]; exact Bool.false_ne_true)]
      | cons d t =>
        exfalso
        have hdt : jsTrimEnd (d :: t) = d :: t := by
          apply ih
          intro c hc
          apply hl c
          rw [List.getLast?_cons_cons]
          exact hc
        rw [hdt] at hr
        cases hr
    | cons e u =>
      have he : jsTrimEnd (a :: rest) = a :: e :: u := by
        simp [jsTrimEnd, hr]
      have hrr : jsTrimEnd rest = rest := by
        apply ih
        intro c hc
        apply hl c
        cases rest with
        | nil => simp [jsTrimEnd] at hr
        | cons d t =>
          rw [List.getLast?_cons_cons]
          exact hc
      rw [he, ← hr, hrr]

theorem jsTrim_noop (s : List Char)
    (hh : ∀ c, s.head? = some c → jsWs c = false)
    (hl : ∀ c, s.getLast? = some c → jsWs c = false) : jsTrim s = s := by
  unfold jsTrim jsTrimStart
  rw [dropWhile_noop_of_head hh]
  exact jsTrimEnd_noop s hl

theorem rgbToHex_of_match {color : List Char} {r g b : Nat}
    (h : matchRgb (jsTrim color) = some (r, g, b)) :
    rgbToHex color =
      '#' :: (hexByteL (min 255 r) ++ hexByteL (min 255 g) ++
        hexByteL (min 255 b)) := by
  unfold rgbToHex
  rw [h]

/-- A successful `rgb(`/`rgba(` match requires an opening parenthesis. -/
theorem matchRgb_paren {s : List Char} {v : Nat × Nat × Nat}
    (h : matchRgb s = some v) : '(' ∈ s := by
  cases s with
  | nil => simp [matchRgb] at h
  | cons c1 s1 =>
    cases s1 with
    | nil => simp [matchRgb] at h
    | cons c2 s2 =>
      cases s2 with
      | nil => simp [matchRgb] at h
      | cons c3 rest =>
        cases rest with
        | nil => simp [matchRgb] at h
        | cons c4 r2 =>
          simp only [matchRgb] at h
          by_cases hc : (c1 = 'r' ∨ c1 = 'R') ∧ (c2 = 'g' ∨ c2 = 'G') ∧
              (c3 = 'b' ∨ c3 = 'B')
          · rw [if_pos hc] at h
            by_cases h4 : c4 = 'a' ∨ c4 = 'A'
            · rw [if_pos h4] at h
              cases r2 with
              | nil => simp at h
              | cons c5 r3 =>
                by_cases h5 : c5 = '('
                · subst h5
                  simp
                · simp [h5] at h
            · rw [if_neg h4] at h
              by_cases h5 : c4 = '('
              · subst h5
                simp
              · rw [if_neg h5] at h
                simp at h
          · rw [if_neg hc] at h
            cases h

/-- C10: every `rgb(r, g, b)` / `rgba(r, g, b, a)` color value is
normalized to a clamped lowercase `#rrggbb` before emission, and
anything else is emitted unchanged.  Parts: (1) the color matcher
accepts both spellings with arbitrary `\s*` runs and captures the
decimal components; (2) a value with no surrounding whitespace is not
altered by the trim; (3) a matched value is emitted as `#` followed by
the three hex bytes of the components clamped to `0..255`; (4) a value
without an opening parenthesis — a named color or a hex value — is
returned unchanged; (5)/(6) the normalized value is what appears
inside the `\textcolor{`/`\colorbox{` wrapper of the style prefix. -/
theorem claim10_rgb_color_hex :
    (∀ (w1 d1 w2 w3 d2 w4 w5 d3 rest : List Char),
      (∀ c ∈ w1, jsWs c = true) → (∀ c ∈ w2, jsWs c = true) →
      (∀ c ∈ w3, jsWs c = true) → (∀ c ∈ w4, jsWs c = true) →
      (∀ c ∈ w5, jsWs c = true) →
      d1 ≠ [] → (∀ c ∈ d1, isDigitB c = true) →
      d2 ≠ [] → (∀ c ∈ d2, isDigitB c = true) →
      d3 ≠ [] → (∀ c ∈ d3, isDigitB c = true) →
      (∀ c, rest.head? = some c → isDigitB c = false) →
      matchRgb ('r' :: 'g' :: 'b' :: '(' :: (w1 ++ (d1 ++ (w2 ++ ',' ::
          (w3 ++ (d2 ++ (w4 ++ ',' :: (w5 ++ (d3 ++ rest))))))))) =
        some (natOfDigits d1, natOfDigits d2, natOfDigits d3) ∧
      matchRgb ('r' :: 'g' :: 'b' :: 'a' :: '(' :: (w1 ++ (d1 ++ (w2 ++ ',' ::
          (w3 ++ (d2 ++ (w4 ++ ',' :: (w5 ++ (d3 ++ rest))))))))) =
        some (natOfDigits d1, natOfDigits d2, natOfDigits d3)) ∧
    (∀ s : List Char,
      (∀ c, s.head? = some c → jsWs c = false) →
      (∀ c, s.getLast? = some c → jsWs c = false) → jsTrim s = s) ∧
    (∀ (color : List Char) (r g b : Nat),
      matchRgb (jsTrim color) = some (r, g, b) →
      rgbToHex color =
        '#' :: (hexByteL (min 255 r) ++ hexByteL (min 255 g) ++
          hexByteL (min 255 b))) ∧
    (∀ s : List Char, '(' ∉ s → rgbToHex s = s) ∧
    (∀ st : Styles, colorOn st →
      containsB ("\\textcolor\x7b".toList ++ (rgbToHex st.color ++
        "\x7d\x7b".toList)) (styleWrap st).1 = true) ∧
    (∀ st : Styles, bgOn st →
      containsB ("\\colorbox\x7b".toList ++ (rgbToHex st.backgroundColor ++
        "\x7d\x7b".toList)) (styleWrap st).1 = true) := by
  refine ⟨?_, jsTrim_noop, @rgbToHex_of_match, ?_, ?_, ?_⟩
  · intro w1 d1 w2 w3 d2 w4 w5 d3 rest hw1 hw2 hw3 hw4 hw5 hd1 ha1 hd2 ha2
      hd3 ha3 hrest
    constructor
    · rw [matchRgb_rgb]
      exact matchRgbArgs_exact w1 d1 w2 w3 d2 w4 w5 d3 rest hw1 hw2 hw3 hw4 hw5
        hd1 ha1 hd2 ha2 hd3 ha3 hrest
    · rw [matchRgb_rgba]
      exact matchRgbArgs_exact w1 d1 w2 w3 d2 w4 w5 d3 rest hw1 hw2 hw3 hw4 hw5
        hd1 ha1 hd2 ha2 hd3 ha3 hrest
  · intro s hp
    cases hm : matchRgb (jsTrim s) with
    | none =>
      unfold rgbToHex
      rw [hm]
    | some v =>
      exfalso
      apply hp
      have h1 : '(' ∈ jsTrim s := matchRgb_paren hm
      have h2 : '(' ∈ jsTrimStart s := by
        obtain ⟨u, hu⟩ := jsTrimEnd_initial (jsTrimStart s)
        rw [hu]
        exact List.mem_append_left u h1
      have h3 : s = s.takeWhile jsWs ++ s.dropWhile jsWs :=
        (List.takeWhile_append_dropWhile jsWs s).symm
      rw [h3]
      exact List.mem_append_right _ h2
  · intro st hcol
    have hco : colorOpen st = "\\textcolor\x7b".toList ++
        (rgbToHex st.color ++ "\x7d\x7b".toList) := by
      unfold colorOpen
      rw [if_pos hcol, List.append_assoc]
    show containsB _
      ((alignOpen st ++ (colorOpen st ++ bgOpen st) ++ sfOpen st) ++
        sizeOpen st) = true
    apply containsB_append_left
    apply containsB_append_left
    apply containsB_append_right
    apply containsB_append_left
    rw [hco]
    have hs := startsW_self ("\\textcolor\x7b".toList ++
      (rgbToHex st.color ++ "\x7d\x7b".toList)) []
    rw [List.append_nil] at hs
    exact containsB_of_startsW hs
  · intro st hbg
    have hbo : bgOpen st = "\\colorbox\x7b".toList ++
        (rgbToHex st.backgroundColor ++ "\x7d\x7b".toList) := by
      unfold bgOpen
      rw [if_pos hbg, List.append_assoc]
    show containsB _
      ((alignOpen st ++ (colorOpen st ++ bgOpen st) ++ sfOpen st) ++
        sizeOpen st) = true
    apply containsB_append_left
    apply containsB_append_left
    apply containsB_append_right
    apply containsB_append_right
    rw [hbo]
    have hs := startsW_self ("\\colorbox\x7b".toList ++
      (rgbToHex st.backgroundColor ++ "\x7d\x7b".toList)) []
    rw [List.append_nil] at hs
    exact containsB_of_startsW hs

/-- C10 witness: `rgb(255, 0, 10)` matches, trims to itself and is
emitted as `#ff000a`; the named color `red` passes through unchanged;
a styled node carries the normalized value inside its wrappers. -/
theorem claim10_rgb_color_hex_witness :
    matchRgb ('r' :: 'g' :: 'b' :: '(' :: ([] ++ ("255".toList ++ ([] ++ ',' ::
        ([' '] ++ ("0".toList ++ ([] ++ ',' :: ([' '] ++ ("10".toList ++
        ")".toList))))))))) = some (natOfDigits "255".toList,
        natOfDigits "0".toList, natOfDigits "10".toList) ∧
    jsTrim "rgb(255, 0, 10)".toList = "rgb(255, 0, 10)".toList ∧
    rgbToHex "rgb(255, 0, 10)".toList =
      '#' :: (hexByteL (min 255 255) ++ hexByteL (min 255 0) ++
        hexByteL (min 255 10)) ∧
    rgbToHex "red".toList = "red".toList ∧
    containsB ("\\textcolor\x7b".toList ++
      (rgbToHex "rgb(255, 0, 10)".toList ++ "\x7d\x7b".toList))
      (styleWrap ⟨"rgb(255, 0, 10)".toList, [], [], [], []⟩).1 = true ∧
    containsB ("\\colorbox\x7b".toList ++
      (rgbToHex "rgb(1, 2, 3)".toList ++ "\x7d\x7b".toList))
      (styleWrap ⟨[], "rgb(1, 2, 3)".toList, [], [], []⟩).1 = true :=
  ⟨(claim10_rgb_color_hex.1 [] "255".toList [] [' '] "0".toList [] [' ']
      "10".toList ")".toList (by decide) (by decide) (by decide) (by decide)
      (by decide) (by decide) (by decide) (by decide) (by decide) (by decide)
      (by decide) (by decide)).1,
   claim10_rgb_color_hex.2.1 "rgb(255, 0, 10)".toList (by decide) (by decide),
   claim10_rgb_color_hex.2.2.1 "rgb(255, 0, 10)".toList 255 0 10 (by decide),
   claim10_rgb_color_hex.2.2.2.1 "red".toList (by decide),
   claim10_rgb_color_hex.2.2.2.2.1 ⟨"rgb(255, 0, 10)".toList, [], [], [], []⟩
     (by decide),
   claim10_rgb_color_hex.2.2.2.2.2 ⟨[], "rgb(1, 2, 3)".toList, [], [], []⟩
     (by decide)⟩
